import Mathlib

/-!
Verification of the dhcpkit DHCPv6 server request-processing pipeline.

Shallow embedding of:
* the DNS option handlers (`dhcpkit/ipv6/server/extensions/dns/__init__.py`),
* the relay handler (`dhcpkit/ipv6/server/handlers/__init__.py`),
* the domain-name wire codec (`dhcpkit.utils`, modelled from the spec),
* the message handler pipeline (`dhcpkit.ipv6.server.message_handler`,
  modelled from the spec and the behaviour pinned by the unit tests).

Python machine values are embedded as `Nat` (IPv6 addresses, DUIDs, bytes),
Python lists as Lean lists, fallible code as `Except`.
-/

namespace Dhcpkit

/-- An IPv6 address, abstracted to its 128-bit numeric value. -/
abbrev IPv6Address := Nat

/-- The option `dhcpkit.ipv6.extensions.dns.RecursiveNameServersOption`: carries a list
of recursive name server addresses.  Modelled from the spec: the option class
itself lives in `dhcpkit/ipv6/extensions/dns.py`, which is not part of the
sampled sources; the spec describes it as a singleton option whose value is a
list of IPv6 addresses. -/
structure RecursiveNameServersOption where
  dns_servers : List IPv6Address
deriving DecidableEq, Repr

/-- The option `dhcpkit.ipv6.extensions.dns.DomainSearchListOption`: carries a list of
domain names.  Modelled from the spec: the option class is not in the sampled
sources; the spec describes its single attribute `search_list`, a list of
domain name strings.  In particular it has no `dns_servers` attribute. -/
structure DomainSearchListOption where
  search_list : List String
deriving DecidableEq, Repr

/-- State of a `RecursiveNameServersOptionHandler`: it stores the option built
from the configured addresses (`SimpleOptionHandler.option`). -/
structure RecursiveNameServersOptionHandler where
  option : RecursiveNameServersOption
deriving DecidableEq, Repr

/-- State of a `DomainSearchListOptionHandler`: it stores the option built
from the configured search list. -/
structure DomainSearchListOptionHandler where
  option : DomainSearchListOption
deriving DecidableEq, Repr

/-- One step of the accumulation loops in the `combine` methods:
`if x not in acc: acc.append(x)`. -/
def appendIfAbsent {α : Type} [DecidableEq α] (acc : List α) (x : α) : List α :=
  if x ∈ acc then acc else acc ++ [x]

/-- The method `RecursiveNameServersOptionHandler.combine` from
`dhcpkit/ipv6/server/extensions/dns/__init__.py` lines 27-48: start from an
empty list, add the addresses of the existing options in order skipping
duplicates, then the handler's own addresses, and wrap the result in a new
option. -/
def RecursiveNameServersOptionHandler.combine (self : RecursiveNameServersOptionHandler)
    (existing_options : List RecursiveNameServersOption) : RecursiveNameServersOption :=
  let addresses : List IPv6Address := []
  let addresses := existing_options.foldl
    (fun acc opt => opt.dns_servers.foldl appendIfAbsent acc) addresses
  let addresses := self.option.dns_servers.foldl appendIfAbsent addresses
  RecursiveNameServersOption.mk addresses

/-- The method `DomainSearchListOptionHandler.combine` from
`dhcpkit/ipv6/server/extensions/dns/__init__.py` lines 65-86.  The first loop
collects the domains of the existing options; the second loop (line 81) reads
`self.option.dns_servers`, but `DomainSearchListOption` has no attribute
`dns_servers`, so the attribute access raises `AttributeError` before anything
is returned.  Embedded as an `Except` value. -/
def DomainSearchListOptionHandler.combine (self : DomainSearchListOptionHandler)
    (existing_options : List DomainSearchListOption) : Except String DomainSearchListOption :=
  let domains : List String := []
  let _domains := existing_options.foldl
    (fun acc opt => opt.search_list.foldl appendIfAbsent acc) domains
  -- line 81: `for domain in self.option.dns_servers` raises AttributeError
  let _ := self.option
  Except.error "AttributeError: DomainSearchListOption object has no attribute dns_servers"

/-- Order-preserving deduplication keeping the first occurrence of each
element; this is the spec's notion of a deduplicated concatenation. -/
def firstDedup {α : Type} [DecidableEq α] : List α → List α
  | [] => []
  | x :: xs => x :: firstDedup (xs.filter (fun y => decide (y ≠ x)))
termination_by l => l.length
decreasing_by
  simp only [List.length_cons]
  exact Nat.lt_succ_of_le (List.length_filter_le _ _)

theorem firstDedup_nil {α : Type} [DecidableEq α] : firstDedup ([] : List α) = [] := by
  simp [firstDedup]

theorem firstDedup_cons {α : Type} [DecidableEq α] (x : α) (xs : List α) :
    firstDedup (x :: xs) = x :: firstDedup (xs.filter (fun y => decide (y ≠ x))) := by
  simp [firstDedup]

/-- The accumulation loop of `combine` computes `acc` followed by the
first-occurrence deduplication of the not-yet-seen elements of `xs`. -/
theorem foldl_appendIfAbsent {α : Type} [DecidableEq α] (xs : List α) (acc : List α) :
    xs.foldl appendIfAbsent acc = acc ++ firstDedup (xs.filter (fun x => decide (x ∉ acc))) := by
  induction xs generalizing acc with
  | nil => simp [firstDedup_nil]
  | cons x xs ih =>
    by_cases hx : x ∈ acc
    · have hstep : appendIfAbsent acc x = acc := by simp [appendIfAbsent, hx]
      have hd : (decide (x ∉ acc)) = false := by simp [hx]
      simp only [List.foldl_cons, hstep, List.filter_cons, hd, Bool.false_eq_true, if_false]
      exact ih acc
    · have hstep : appendIfAbsent acc x = acc ++ [x] := by simp [appendIfAbsent, hx]
      have hd : (decide (x ∉ acc)) = true := by simp [hx]
      simp only [List.foldl_cons, hstep, List.filter_cons, hd, if_true]
      rw [ih (acc ++ [x]), firstDedup_cons, List.append_assoc, List.singleton_append]
      congr 2
      rw [List.filter_filter]
      congr 1
      apply List.filter_congr
      intro y _
      by_cases hyx : y = x
      · subst hyx
        simp
      · by_cases hya : y ∈ acc <;> simp [hyx, hya]

/-- Starting from the empty accumulator, the loop is exactly `firstDedup`. -/
theorem foldl_appendIfAbsent_nil {α : Type} [DecidableEq α] (xs : List α) :
    xs.foldl appendIfAbsent [] = firstDedup xs := by
  rw [foldl_appendIfAbsent]
  simp only [List.nil_append]
  congr 1
  apply List.filter_eq_self.mpr
  intro a _
  simp

/-!
Store-level model of the `combine` methods, for the frame property.  Python
lists are mutable heap objects: we model a heap of list cells addressed by
index, so that "the code never mutates its inputs" is a statement about the
cells the code was given, not an artifact of a pure translation.
-/

/-- A heap of mutable Python list objects holding elements of type `α`.
Addresses are indices into `cells`. -/
structure Store (α : Type) where
  cells : List (List α)
deriving Repr

/-- Allocate a fresh list object (`addresses = []` allocates `[]`). -/
def Store.alloc {α : Type} (s : Store α) (v : List α) : Store α × Nat :=
  (Store.mk (s.cells ++ [v]), s.cells.length)

/-- Read the contents of a list object. -/
def Store.read {α : Type} (s : Store α) (r : Nat) : List α :=
  s.cells.getD r []

/-- Overwrite the contents of a list object. -/
def Store.write {α : Type} (s : Store α) (r : Nat) (v : List α) : Store α :=
  Store.mk (s.cells.set r v)

/-- Python `lst.append(x)` on the list object at `r`. -/
def Store.append1 {α : Type} [DecidableEq α] (s : Store α) (r : Nat) (x : α) : Store α :=
  s.write r (s.read r ++ [x])

/-- The body of the inner loops of `combine`, at store level:
`if x not in addresses: addresses.append(x)` where `addresses` is the list
object at `accRef`. -/
def combineStep {α : Type} [DecidableEq α] (accRef : Nat) (s : Store α) (x : α) : Store α :=
  if x ∈ s.read accRef then s else s.append1 accRef x

/-- One source-level `for x in values: if x not in addresses: ...` loop. -/
def combineLoop {α : Type} [DecidableEq α] (accRef : Nat) (s : Store α) (values : List α) :
    Store α :=
  values.foldl (combineStep accRef) s

/-- The store-level `RecursiveNameServersOptionHandler.combine`: the handler's
stored option is the list object at `selfRef`, the existing options are the
list objects at `existing`; the method allocates a fresh `addresses` list,
runs the two loops, and returns (the store and) a new option wrapping the
fresh list. -/
def RecursiveNameServersOptionHandler.combineS {α : Type} [DecidableEq α] (s : Store α)
    (selfRef : Nat) (existing : List Nat) : Store α × Nat :=
  let (s, accRef) := s.alloc []
  let s := existing.foldl (fun s optRef => combineLoop accRef s (s.read optRef)) s
  let s := combineLoop accRef s (s.read selfRef)
  (s, accRef)

/-- The store-level `DomainSearchListOptionHandler.combine`: same first loop over
the existing options, then the attribute access of line 81 fails, so no
reference to a new option is ever produced. -/
def DomainSearchListOptionHandler.combineS {α : Type} [DecidableEq α] (s : Store α)
    (existing : List Nat) : Store α × Except String Nat :=
  let (s, accRef) := s.alloc []
  let s := existing.foldl (fun s optRef => combineLoop accRef s (s.read optRef)) s
  (s, Except.error "AttributeError: DomainSearchListOption object has no attribute dns_servers")

theorem Store.read_snoc_self {α : Type} (base : List (List α)) (v : List α) :
    (Store.mk (base ++ [v])).read base.length = v := by
  induction base with
  | nil => rfl
  | cons b bs ih => exact ih

theorem Store.read_snoc_lt {α : Type} (base : List (List α)) (v : List α) (r : Nat)
    (hr : r < base.length) : (Store.mk (base ++ [v])).read r = (Store.mk base).read r := by
  induction base generalizing r with
  | nil => cases hr
  | cons b bs ih =>
    cases r with
    | zero => rfl
    | succ n =>
      have : n < bs.length := Nat.lt_of_succ_lt_succ hr
      exact ih n this

theorem Store.write_snoc_self {α : Type} (base : List (List α)) (v w : List α) :
    (Store.mk (base ++ [v])).write base.length w = Store.mk (base ++ [w]) := by
  simp only [Store.write]
  congr 1
  induction base with
  | nil => rfl
  | cons b bs ih =>
    show b :: (bs ++ [v]).set bs.length w = b :: (bs ++ [w])
    rw [ih]

/-- Running a combine loop on a store of the shape `base ++ [acc]` with the
accumulator at the fresh address only rewrites the fresh cell, and rewrites it
exactly as the pure accumulation loop does. -/
theorem combineLoop_snoc {α : Type} [DecidableEq α] (values : List α) (base : List (List α))
    (acc : List α) :
    combineLoop base.length (Store.mk (base ++ [acc])) values =
      Store.mk (base ++ [values.foldl appendIfAbsent acc]) := by
  induction values generalizing acc with
  | nil => simp [combineLoop]
  | cons v vs ih =>
    simp only [combineLoop, List.foldl_cons] at ih ⊢
    by_cases hv : v ∈ acc
    · have h1 : combineStep base.length (Store.mk (base ++ [acc])) v = Store.mk (base ++ [acc]) := by
        simp [combineStep, Store.read_snoc_self, hv]
      have h2 : appendIfAbsent acc v = acc := by simp [appendIfAbsent, hv]
      rw [h1, h2, ih]
    · have h1 : combineStep base.length (Store.mk (base ++ [acc])) v =
          Store.mk (base ++ [acc ++ [v]]) := by
        simp only [combineStep, Store.append1]
        rw [Store.read_snoc_self, if_neg hv, Store.write_snoc_self]
      have h2 : appendIfAbsent acc v = acc ++ [v] := by simp [appendIfAbsent, hv]
      rw [h1, h2, ih]

/-- The loop over the existing options likewise only rewrites the fresh
accumulator cell. -/
theorem existingLoop_snoc {α : Type} [DecidableEq α] (refs : List Nat) (base : List (List α))
    (acc : List α) (h : ∀ r ∈ refs, r < base.length) :
    refs.foldl (fun s optRef => combineLoop base.length s (s.read optRef))
        (Store.mk (base ++ [acc])) =
      Store.mk (base ++
        [refs.foldl (fun a r => ((Store.mk base).read r).foldl appendIfAbsent a) acc]) := by
  induction refs generalizing acc with
  | nil => rfl
  | cons r rs ih =>
    simp only [List.foldl_cons]
    have hr : r < base.length := h r (List.mem_cons_self r rs)
    rw [Store.read_snoc_lt base acc r hr, combineLoop_snoc]
    exact ih _ (fun x hx => h x (List.mem_cons_of_mem r hx))

/-- The pure result list of `RecursiveNameServersOptionHandler.combine`, as a
function of the handler's address list and the existing options' lists. -/
def combinePure {α : Type} [DecidableEq α] (own : List α) (existingVals : List (List α)) :
    List α :=
  own.foldl appendIfAbsent (existingVals.foldl (fun a l => l.foldl appendIfAbsent a) [])

/-- Full characterisation of the store-level
`RecursiveNameServersOptionHandler.combine`: the final store is the initial
store extended with exactly one fresh cell, that cell holds the pure combined
list, and the returned option wraps that fresh cell. -/
theorem RecursiveNameServersOptionHandler.combineS_spec_rns {α : Type} [DecidableEq α]
    (s : Store α) (selfRef : Nat) (existing : List Nat)
    (hself : selfRef < s.cells.length) (hex : ∀ r ∈ existing, r < s.cells.length) :
    RecursiveNameServersOptionHandler.combineS s selfRef existing =
      (Store.mk (s.cells ++ [combinePure (s.read selfRef) (existing.map s.read)]),
        s.cells.length) := by
  obtain ⟨cells⟩ := s
  simp only [RecursiveNameServersOptionHandler.combineS, Store.alloc]
  rw [existingLoop_snoc existing cells [] hex]
  rw [Store.read_snoc_lt cells _ selfRef hself, combineLoop_snoc]
  simp only [combinePure, Prod.mk.injEq, and_true]
  rw [List.foldl_map]

/-- Characterisation of the store-level `DomainSearchListOptionHandler.combine`:
even though line 81 raises before a result is produced, the only cell the
method has written is the freshly allocated accumulator. -/
theorem DomainSearchListOptionHandler.combineS_spec_dsl {α : Type} [DecidableEq α]
    (s : Store α) (existing : List Nat) (hex : ∀ r ∈ existing, r < s.cells.length) :
    DomainSearchListOptionHandler.combineS s existing =
      (Store.mk (s.cells ++
          [(existing.map s.read).foldl (fun a l => l.foldl appendIfAbsent a) []]),
        Except.error
          "AttributeError: DomainSearchListOption object has no attribute dns_servers") := by
  obtain ⟨cells⟩ := s
  simp only [DomainSearchListOptionHandler.combineS, Store.alloc]
  rw [existingLoop_snoc existing cells [] hex]
  simp only [Prod.mk.injEq, and_true]
  rw [List.foldl_map]

/-!
Domain name wire codec.

Modelled from the spec: `dhcpkit.utils` (`encode_domain`, `parse_domain_bytes`,
`encode_domain_list`, `parse_domain_list_bytes`) is not among the sampled
sources.  Per the spec, a domain name is encoded as RFC 1035 labels: each
label prefixed by a length byte 1..63, terminated by a zero-length label; the
encoded form (including the trailing root) must be at most 255 bytes; decoders
reject a label longer than 63, a total longer than 255, a label length that
exceeds the remaining buffer, and a missing terminating zero label.  A domain
list is the concatenation of encoded domains.  A domain name is represented
here as its list of labels, each label a list of bytes; this corresponds
bijectively to the dotted Python string. -/

/-- A domain name label: its bytes. -/
abbrev Label := List Nat

/-- A domain name: its labels, outermost first. -/
abbrev Domain := List Label

/-- The raw wire form of a domain: length-prefixed labels plus the root. -/
def encodeLabels (d : Domain) : List Nat :=
  d.flatMap (fun l => l.length :: l) ++ [0]

/-- The function `dhcpkit.utils.encode_domain` (absolute form), modelled from the spec:
validates the label lengths and the total encoded length. -/
def encode_domain (d : Domain) : Except String (List Nat) :=
  if d.any (fun l => decide (l.length < 1) || decide (63 < l.length)) then
    Except.error "Domain name labels must be 1 to 63 characters long"
  else if 255 < (encodeLabels d).length then
    Except.error "Domain name must be 255 characters or less"
  else
    Except.ok (encodeLabels d)

/-- The label-reading loop of `parse_domain_bytes`, modelled from the spec:
read a length byte; zero terminates, 1..63 reads that many label bytes,
anything larger is rejected; running out of buffer is rejected. -/
def parseLabels : List Nat → Except String (Nat × Domain)
  | [] => Except.error "Domain name must end with a 0-length label"
  | b :: rest =>
    if b = 0 then
      Except.ok (1, [])
    else if 63 < b then
      Except.error "Domain name labels must be 1 to 63 characters long"
    else if rest.length < b then
      Except.error "Domain name label exceeds available buffer"
    else
      match parseLabels (rest.drop b) with
      | Except.error e => Except.error e
      | Except.ok (n, labels) => Except.ok (1 + b + n, rest.take b :: labels)
termination_by l => l.length
decreasing_by
  simp only [List.length_drop, List.length_cons]
  exact Nat.lt_succ_of_le (Nat.sub_le _ _)

/-- The function `dhcpkit.utils.parse_domain_bytes` (absolute form), modelled from the
spec: parse the labels, then reject an encoded form longer than 255 bytes.
Returns the number of consumed bytes and the parsed domain. -/
def parse_domain_bytes (buffer : List Nat) : Except String (Nat × Domain) :=
  match parseLabels buffer with
  | Except.error e => Except.error e
  | Except.ok (n, labels) =>
    if 255 < n then Except.error "Domain name must be 255 characters or less"
    else Except.ok (n, labels)

/-- The function `dhcpkit.utils.encode_domain_list`, modelled from the spec: the
concatenation of the encoded domains. -/
def encode_domain_list : List Domain → Except String (List Nat)
  | [] => Except.ok []
  | d :: ds =>
    match encode_domain d with
    | Except.error e => Except.error e
    | Except.ok bs =>
      match encode_domain_list ds with
      | Except.error e => Except.error e
      | Except.ok rest => Except.ok (bs ++ rest)

/-- The function `dhcpkit.utils.parse_domain_list_bytes`, modelled from the spec: parse
domains one after the other until the buffer is exhausted.  The zero-progress
branch is unreachable (a successful domain parse always consumes at least one
byte) and exists only to justify termination. -/
def parse_domain_list_bytes (buffer : List Nat) : Except String (Nat × List Domain) :=
  if hb : buffer = [] then
    Except.ok (0, [])
  else
    match parse_domain_bytes buffer with
    | Except.error e => Except.error e
    | Except.ok (n, d) =>
      if hn : n = 0 then
        Except.error "domain parser did not advance"
      else
        match parse_domain_list_bytes (buffer.drop n) with
        | Except.error e => Except.error e
        | Except.ok (m, ds) => Except.ok (n + m, d :: ds)
termination_by buffer.length
decreasing_by
  simp only [List.length_drop]
  exact Nat.sub_lt (List.length_pos.mpr hb) (Nat.pos_of_ne_zero hn)

/-- A structurally valid domain: every label is 1 to 63 bytes long. -/
def ValidLabels (d : Domain) : Prop :=
  ∀ l ∈ d, 1 ≤ l.length ∧ l.length ≤ 63

instance (d : Domain) : Decidable (ValidLabels d) := by
  unfold ValidLabels
  infer_instance

theorem encodeLabels_nil : encodeLabels [] = [0] := rfl

theorem encodeLabels_cons (l : Label) (d : Domain) :
    encodeLabels (l :: d) = l.length :: (l ++ encodeLabels d) := by
  simp [encodeLabels, List.flatMap_cons]

theorem encodeLabels_length_pos (d : Domain) : 0 < (encodeLabels d).length := by
  cases d with
  | nil => simp [encodeLabels_nil]
  | cons l d => simp [encodeLabels_cons]

/-- The label parser undoes the label encoder on any buffer that starts with
an encoded domain, consuming exactly the encoded bytes. -/
theorem parseLabels_encodeLabels (d : Domain) (rest : List Nat) (hv : ValidLabels d) :
    parseLabels (encodeLabels d ++ rest) = Except.ok ((encodeLabels d).length, d) := by
  induction d generalizing rest with
  | nil => simp [encodeLabels_nil, parseLabels]
  | cons l ds ih =>
    have hl := hv l (List.mem_cons_self l ds)
    have hv' : ValidLabels ds := fun x hx => hv x (List.mem_cons_of_mem l hx)
    rw [encodeLabels_cons]
    have hne : ¬ l.length = 0 := by omega
    have hle : ¬ 63 < l.length := by omega
    simp only [List.cons_append, parseLabels, hne, if_false, hle]
    rw [List.append_assoc]
    have hbuf : ¬ (l ++ (encodeLabels ds ++ rest)).length < l.length := by
      simp [List.length_append]
    simp only [hbuf, if_false]
    rw [List.drop_left, List.take_left, ih rest hv']
    simp [encodeLabels_cons, List.length_append]
    omega

/-- Encoding succeeds exactly on the inputs the round-trip claim ranges over,
and produces the raw wire form. -/
theorem encode_domain_ok (d : Domain) (hv : ValidLabels d)
    (hlen : (encodeLabels d).length ≤ 255) :
    encode_domain d = Except.ok (encodeLabels d) := by
  have hany : d.any (fun l => decide (l.length < 1) || decide (63 < l.length)) = false := by
    rw [List.any_eq_false]
    intro l hl
    have := hv l hl
    simp only [Bool.or_eq_true, decide_eq_true_eq]
    omega
  simp only [encode_domain]
  rw [hany]
  simp only [Bool.false_eq_true, if_false]
  rw [if_neg (Nat.not_lt.mpr hlen)]

/-- Parsing undoes encoding on a buffer starting with an encoded domain. -/
theorem parse_domain_bytes_encode (d : Domain) (rest : List Nat) (hv : ValidLabels d)
    (hlen : (encodeLabels d).length ≤ 255) :
    parse_domain_bytes (encodeLabels d ++ rest) =
      Except.ok ((encodeLabels d).length, d) := by
  simp [parse_domain_bytes, parseLabels_encodeLabels d rest hv, Nat.not_lt.mpr hlen]

/-- Encoding a list of valid domains succeeds and concatenates the encodings. -/
theorem encode_domain_list_ok (ds : List Domain)
    (h : ∀ x ∈ ds, ValidLabels x ∧ (encodeLabels x).length ≤ 255) :
    encode_domain_list ds = Except.ok (ds.flatMap encodeLabels) := by
  induction ds with
  | nil => rfl
  | cons d ds ih =>
    have hd := h d (List.mem_cons_self d ds)
    have hds : ∀ x ∈ ds, ValidLabels x ∧ (encodeLabels x).length ≤ 255 :=
      fun x hx => h x (List.mem_cons_of_mem d hx)
    simp only [encode_domain_list, encode_domain_ok d hd.1 hd.2, ih hds, List.flatMap_cons]

/-- Parsing a concatenation of encoded valid domains returns them all and
consumes the whole buffer. -/
theorem parse_domain_list_encode (ds : List Domain)
    (h : ∀ x ∈ ds, ValidLabels x ∧ (encodeLabels x).length ≤ 255) :
    parse_domain_list_bytes (ds.flatMap encodeLabels) =
      Except.ok ((ds.flatMap encodeLabels).length, ds) := by
  induction ds with
  | nil => simp [parse_domain_list_bytes]
  | cons d ds ih =>
    have hd := h d (List.mem_cons_self d ds)
    have hds : ∀ x ∈ ds, ValidLabels x ∧ (encodeLabels x).length ≤ 255 :=
      fun x hx => h x (List.mem_cons_of_mem d hx)
    have hpos := encodeLabels_length_pos d
    have hne : encodeLabels d ++ ds.flatMap encodeLabels ≠ [] := by
      intro hc
      have := congrArg List.length hc
      simp only [List.length_append, List.length_nil] at this
      omega
    rw [List.flatMap_cons]
    rw [parse_domain_list_bytes]
    simp only [hne, dite_false, parse_domain_bytes_encode d _ hd.1 hd.2]
    have hn0 : (encodeLabels d).length ≠ 0 := by omega
    simp only [hn0, dite_false, List.drop_left, ih hds, List.length_append]

/-!
Messages, options and the transaction bundle.

Modelled from the spec: `dhcpkit.ipv6.messages`, `dhcpkit.ipv6.options` and
`dhcpkit.ipv6.server.transaction_bundle` are not among the sampled sources.
The spec describes a client/server message as a type plus a transaction id and
an option list, options as tagged values, and the transaction bundle as the
mutable per-request state carrier with the fields listed in its section 3.
Only the fields and option types the pipeline logic touches are modelled. -/

/-- DHCPv6 message types relevant to the pipeline. -/
inductive MsgType
  | solicit
  | advertise
  | request
  | confirm
  | renew
  | rebind
  | reply
  | release
  | decline
  | reconfigure
  | informationRequest
  | otherType (code : Nat)
deriving DecidableEq, Repr

/-- Status code values used by the core (RFC 8415 registry values). -/
def STATUS_SUCCESS : Nat := 0

def STATUS_NOADDRSAVAIL : Nat := 2

def STATUS_NOTONLINK : Nat := 4

def STATUS_USEMULTICAST : Nat := 5

def STATUS_NOPREFIXAVAIL : Nat := 6

/-- Sub-options nested inside IA container options. -/
inductive SubOpt
  | iaaddress (addr : IPv6Address)
  | iapfx (pfx : Nat) (pfxlen : Nat)
  | statuscode (code : Nat)
  | subother (code : Nat)
deriving DecidableEq, Repr

/-- Top-level options on client/server messages. -/
inductive Opt
  | clientId (duid : Nat)
  | serverId (duid : Nat)
  | iana (iaid : Nat) (subopts : List SubOpt)
  | iata (iaid : Nat) (subopts : List SubOpt)
  | iapd (iaid : Nat) (subopts : List SubOpt)
  | statusCode (code : Nat)
  | rapidCommit
  | serverUnicast (addr : IPv6Address)
  | otherOpt (code : Nat)
deriving DecidableEq, Repr

/-- A DHCPv6 client/server message: type, transaction id, options. -/
structure CSMessage where
  msgType : MsgType
  transaction_id : Nat
  options : List Opt
deriving DecidableEq, Repr

/-- A relay message frame (RelayForward inbound, RelayReply outbound): the
fields the pipeline mirrors. -/
structure RelayMsg where
  hop_count : Nat
  link_address : IPv6Address
  peer_address : IPv6Address
deriving DecidableEq, Repr

/-- The `TransactionBundle`: the mutable per-request state carrier (spec §3). -/
structure Bundle where
  request : CSMessage
  incoming_relay_messages : List RelayMsg
  response : Option CSMessage
  outgoing_relay_messages : Option (List RelayMsg)
  marks : List String
  received_over_multicast : Bool
  allow_unicast : Bool
  allow_rapid_commit : Bool
  rapid_commit_rejections : Bool
deriving DecidableEq, Repr

/-- Message types a server accepts from clients (spec §4.1 step 3). -/
def accepted : MsgType → Bool
  | .solicit | .request | .confirm | .renew | .rebind | .release | .decline
  | .informationRequest => true
  | _ => false

/-- Whether a message type travels from client to server.  The unit tests use
a custom type-255 message declared client-to-server, so unknown codes are
treated as client-to-server here; they are dropped by `accepted` anyway. -/
def fromClientToServer : MsgType → Bool
  | .solicit | .request | .confirm | .renew | .rebind | .release | .decline
  | .informationRequest | .otherType _ => true
  | _ => false

/-- Response message type per request type (spec §4.1 step 4). -/
def responseTypeFor : MsgType → MsgType
  | .solicit => .advertise
  | _ => .reply

/-- Python `get_option_of_type(ClientIdOption)` on a message. -/
def CSMessage.clientIdOpt (m : CSMessage) : Option Nat :=
  m.options.findSome? fun o =>
    match o with
    | .clientId d => some d
    | _ => none

/-- The DUID carried by an option, when it is a ServerIdOption. -/
def serverIdProj : Opt → Option Nat
  | .serverId d => some d
  | _ => none

/-- The code carried by an option, when it is a StatusCodeOption. -/
def statusProj : Opt → Option Nat
  | .statusCode c => some c
  | _ => none

/-- The DUIDs of the `ServerIdOption`s on a message, in order. -/
def CSMessage.serverIds (m : CSMessage) : List Nat :=
  m.options.filterMap serverIdProj

/-- The codes of the top-level `StatusCodeOption`s on a message, in order. -/
def CSMessage.statusCodes (m : CSMessage) : List Nat :=
  m.options.filterMap statusProj

/-- Whether a message carries the rapid-commit option. -/
def CSMessage.hasRapidCommit (m : CSMessage) : Bool :=
  m.options.any fun o =>
    match o with
    | .rapidCommit => true
    | _ => false

/-- Whether a message carries an IANAOption, IATAOption or IAPDOption. -/
def CSMessage.hasIAOption (m : CSMessage) : Bool :=
  m.options.any fun o =>
    match o with
    | .iana _ _ | .iata _ _ | .iapd _ _ => true
    | _ => false

/-- Idempotent mark insertion: `marks` is a set (spec §3 invariant 2). -/
def addMark (marks : List String) (m : String) : List String :=
  if m ∈ marks then marks else marks ++ [m]

/-!
Handlers.  `dhcpkit/ipv6/server/handlers/__init__.py` (in the sampled
sources) defines the `Handler` three-phase contract, the abort exceptions and
`RelayHandler.handle`. -/

/-- The abort signals a handler can raise (`CannotRespondError`,
`UseMulticastError`). -/
inductive HandlerError
  | cannotRespond
  | useMulticast
deriving DecidableEq, Repr

instance {ε α : Type} [DecidableEq ε] [DecidableEq α] : DecidableEq (Except ε α) := fun x y =>
  match x, y with
  | Except.ok a, Except.ok b =>
    if h : a = b then Decidable.isTrue (congrArg Except.ok h)
    else Decidable.isFalse (fun hc => h (Except.ok.inj hc))
  | Except.error a, Except.error b =>
    if h : a = b then Decidable.isTrue (congrArg Except.error h)
    else Decidable.isFalse (fun hc => h (Except.error.inj hc))
  | Except.ok _, Except.error _ => Decidable.isFalse (fun hc => Except.noConfusion hc)
  | Except.error _, Except.ok _ => Decidable.isFalse (fun hc => Except.noConfusion hc)

/-- The three request-time phases of a handler. -/
inductive Phase
  | pre
  | handle
  | post
deriving DecidableEq, Repr

/-- A concrete handler: an identifier (for observing call order) and the
three phase methods, each mutating the bundle or raising an abort signal. -/
structure SHandler where
  id : Nat
  onPre : Bundle → Except HandlerError Bundle
  onHandle : Bundle → Except HandlerError Bundle
  onPost : Bundle → Except HandlerError Bundle

/-- Dispatch a phase to the matching method. -/
def SHandler.run (h : SHandler) : Phase → Bundle → Except HandlerError Bundle
  | .pre => h.onPre
  | .handle => h.onHandle
  | .post => h.onPost

/-- The method `RelayHandler.handle` from `dhcpkit/ipv6/server/handlers/__init__.py`
lines 95-114: requires the outgoing chain to be present and of the same
length as the incoming chain, else logs an error and returns; otherwise calls
`handle_relay` on each index-matched pair.  `handle_relay` is the abstract
method of the subclass; the second component of the result records the
argument pairs passed to it, in call order. -/
def RelayHandler.handle (handle_relay : Bundle → RelayMsg → RelayMsg → Bundle)
    (bundle : Bundle) : Bundle × List (RelayMsg × RelayMsg) :=
  match bundle.outgoing_relay_messages with
  | none => (bundle, [])
  | some outgoing =>
    if bundle.incoming_relay_messages.length ≠ outgoing.length then
      (bundle, [])
    else
      (bundle.incoming_relay_messages.zip outgoing).foldl
        (fun acc p => (handle_relay acc.1 p.1 p.2, acc.2 ++ [p])) (bundle, [])

/-- A node of the configured tree: a leaf handler, or a filter with a
predicate over the bundle and an ordered list of children (spec §4.3 and the
design note on tagged variants). -/
inductive Node
  | handler (h : SHandler)
  | filter (cond : Bundle → Bool) (children : List Node)

/-- An observable handler invocation: which handler, at which phase, and the
concrete type of `bundle.response` at the moment of the call. -/
structure Event where
  hid : Nat
  phase : Phase
  responseSeen : Option MsgType
deriving DecidableEq, Repr

mutual

/-- Run one phase of one tree node: a leaf invokes the handler's phase method
(recording the event); a filter re-evaluates its predicate at this phase and
descends only when it holds. -/
def runPhaseNode (φ : Phase) (n : Node) (b : Bundle) :
    Except HandlerError Bundle × List Event :=
  match n with
  | .handler h => (h.run φ b, [Event.mk h.id φ (b.response.map CSMessage.msgType)])
  | .filter cond children => if cond b then runPhaseList φ children b else (Except.ok b, [])

/-- Run one phase over a list of tree nodes in order, stopping at the first
abort signal. -/
def runPhaseList (φ : Phase) (ns : List Node) (b : Bundle) :
    Except HandlerError Bundle × List Event :=
  match ns with
  | [] => (Except.ok b, [])
  | n :: rest =>
    match runPhaseNode φ n b with
    | (Except.ok b2, ev) =>
      let r := runPhaseList φ rest b2
      (r.1, ev ++ r.2)
    | (Except.error e, ev) => (Except.error e, ev)

end

/-!
The Message Handler.

Modelled from the spec: `dhcpkit.ipv6.server.message_handler` is not among the
sampled sources; only its unit tests are.  The model follows the algorithm of
spec §4.1 with the phase ordering the tests pin down: `pre` runs on every
handler (extension setup, configured tree, extension cleanup, in that order),
then the response is initialised, then `handle` runs on every handler, then
the post-tree rewrites (rapid commit, confirmation status, default-deny IA
statuses), then `post` runs on every handler; abort signals are caught at the
top.  The tests also show that the response carries an IA option for each IA
option of the request, so unanswered request IA options are materialised
(empty) on the response before the default-deny statuses are attached. -/

/-- The Message Handler configuration: server DUID, the extension setup and
cleanup handlers spliced in from the extension registry, the configured tree,
and the two rapid-commit booleans. -/
structure MessageHandler where
  server_duid : Nat
  setup_handlers : List SHandler
  sub_nodes : List Node
  cleanup_handlers : List SHandler
  allow_rapid_commit : Bool
  rapid_commit_rejections : Bool

/-- The full handler sequence a request traverses: extension setup handlers,
then the configured tree, then extension cleanup handlers. -/
def MessageHandler.allNodes (mh : MessageHandler) : List Node :=
  mh.setup_handlers.map Node.handler ++ mh.sub_nodes ++ mh.cleanup_handlers.map Node.handler

/-- Build the transaction bundle for an accepted request (spec §4.1 step 2);
the marks argument is added with set semantics. -/
def mkBundle (mh : MessageHandler) (request : CSMessage) (multicast : Bool)
    (marks : List String) : Bundle :=
  { request := request
    incoming_relay_messages := []
    response := none
    outgoing_relay_messages := none
    marks := marks.foldl addMark []
    received_over_multicast := multicast
    allow_unicast := false
    allow_rapid_commit := mh.allow_rapid_commit
    rapid_commit_rejections := mh.rapid_commit_rejections }

/-- The outbound relay frame mirroring an inbound frame (same hop count,
link-address and peer-address; option payloads are not modelled). -/
def mirrorRelay (r : RelayMsg) : RelayMsg := r

/-- The copy of the request's ClientIdOption destined for the response
(empty when the request carries none). -/
def clientIdOpts (request : CSMessage) : List Opt :=
  match request.clientIdOpt with
  | some d => [Opt.clientId d]
  | none => []

/-- Spec §4.1 step 4: select the provisional response type from the request
type, copy the transaction id and the request's ClientIdOption, add a
ServerIdOption with this server's DUID, and materialise the outgoing relay
chain mirroring the incoming one. -/
def initResponse (mh : MessageHandler) (b : Bundle) : Bundle :=
  { b with
    response := some (CSMessage.mk (responseTypeFor b.request.msgType)
      b.request.transaction_id (clientIdOpts b.request ++ [Opt.serverId mh.server_duid]))
    outgoing_relay_messages := some (b.incoming_relay_messages.map mirrorRelay) }

/-- Apply a rewriting of the response's option list, if a response exists. -/
def respSetOptions (b : Bundle) (f : List Opt → List Opt) : Bundle :=
  match b.response with
  | none => b
  | some r => { b with response := some { r with options := f r.options } }

/-- Spec §4.1 step 7: after `handle` and before `post`, a rapid-commit
Solicit is promoted from Advertise to Reply exactly when both rapid-commit
booleans are set. -/
def rapidRewrite (b : Bundle) : Bundle :=
  if b.request.msgType = MsgType.solicit ∧ b.request.hasRapidCommit ∧
      b.allow_rapid_commit ∧ b.rapid_commit_rejections then
    match b.response with
    | some r => { b with response := some { r with msgType := MsgType.reply } }
    | none => b
  else b

/-- Whether the response (if any) carries no top-level status option yet. -/
def respHasNoStatus (b : Bundle) : Bool :=
  match b.response with
  | some r => r.statusCodes.isEmpty
  | none => true

/-- Spec §4.1 step 8: a Confirm nobody confirmed gets a top-level
`STATUS_NOTONLINK`. -/
def confirmStep (b : Bundle) : Bundle :=
  if b.request.msgType = MsgType.confirm ∧ respHasNoStatus b = true then
    respSetOptions b (fun opts => opts ++ [Opt.statusCode STATUS_NOTONLINK])
  else b

/-- Does the option list carry an IANAOption with this IAID? -/
def hasIanaIaid (opts : List Opt) (i : Nat) : Bool :=
  opts.any fun o =>
    match o with
    | .iana j _ => j = i
    | _ => false

/-- Does the option list carry an IATAOption with this IAID? -/
def hasIataIaid (opts : List Opt) (i : Nat) : Bool :=
  opts.any fun o =>
    match o with
    | .iata j _ => j = i
    | _ => false

/-- Does the option list carry an IAPDOption with this IAID? -/
def hasIapdIaid (opts : List Opt) (i : Nat) : Bool :=
  opts.any fun o =>
    match o with
    | .iapd j _ => j = i
    | _ => false

/-- Empty IA container options for the request's IA options the handlers left
unanswered on the response. -/
def iaCopyAdditions (reqOpts respOpts : List Opt) : List Opt :=
  reqOpts.filterMap fun o =>
    match o with
    | .iana i _ => if hasIanaIaid respOpts i then none else some (Opt.iana i [])
    | .iata i _ => if hasIataIaid respOpts i then none else some (Opt.iata i [])
    | .iapd i _ => if hasIapdIaid respOpts i then none else some (Opt.iapd i [])
    | _ => none

/-- Materialise the unanswered request IA options on the response. -/
def iaCopyStep (b : Bundle) : Bundle :=
  respSetOptions b (fun opts => opts ++ iaCopyAdditions b.request.options opts)

/-- Does an IA option body contain an address sub-option? -/
def hasAddrSub (subs : List SubOpt) : Bool :=
  subs.any fun s =>
    match s with
    | .iaaddress _ => true
    | _ => false

/-- Does an IA option body contain a prefix sub-option? -/
def hasPfxSub (subs : List SubOpt) : Bool :=
  subs.any fun s =>
    match s with
    | .iapfx _ _ => true
    | _ => false

/-- Spec §4.1 step 9 on one option: an address IA with no addresses gets a
nested `STATUS_NOADDRSAVAIL`; a prefix IA with no prefixes gets a nested
`STATUS_NOPREFIXAVAIL`; everything else is untouched. -/
def fixOpt : Opt → Opt
  | .iana i subs =>
    if hasAddrSub subs then .iana i subs
    else .iana i (subs ++ [SubOpt.statuscode STATUS_NOADDRSAVAIL])
  | .iata i subs =>
    if hasAddrSub subs then .iata i subs
    else .iata i (subs ++ [SubOpt.statuscode STATUS_NOADDRSAVAIL])
  | .iapd i subs =>
    if hasPfxSub subs then .iapd i subs
    else .iapd i (subs ++ [SubOpt.statuscode STATUS_NOPREFIXAVAIL])
  | o => o

/-- Spec §4.1 step 9 over the whole response. -/
def iaStatusStep (b : Bundle) : Bundle :=
  respSetOptions b (fun opts => opts.map fixOpt)

/-- The rewrites between the `handle` and `post` phases, in order: rapid
commit promotion, confirmation status, IA materialisation, default-deny IA
statuses. -/
def postProcess (b : Bundle) : Bundle :=
  iaStatusStep (iaCopyStep (confirmStep (rapidRewrite b)))

/-- The Reply telling the client to retry over multicast (spec §4.1 step 6):
the client's ClientIdOption, this server's ServerIdOption, and a single
top-level `STATUS_USEMULTICAST` status. -/
def useMulticastReply (mh : MessageHandler) (request : CSMessage) : CSMessage :=
  CSMessage.mk MsgType.reply request.transaction_id
    (clientIdOpts request ++ [Opt.serverId mh.server_duid, Opt.statusCode STATUS_USEMULTICAST])

/-- The uncaught pipeline for an accepted request: `pre` on all handlers,
unicast policy check and response initialisation, `handle` on all handlers,
the post-tree rewrites, `post` on all handlers. -/
def runPipeline (mh : MessageHandler) (b0 : Bundle) :
    Except HandlerError Bundle × List Event :=
  match runPhaseList Phase.pre mh.allNodes b0 with
  | (Except.error e, tr) => (Except.error e, tr)
  | (Except.ok b1, tr1) =>
    if b1.received_over_multicast = false ∧ b1.allow_unicast = false then
      (Except.error HandlerError.useMulticast, tr1)
    else
      let b2 := initResponse mh b1
      match runPhaseList Phase.handle mh.allNodes b2 with
      | (Except.error e, tr2) => (Except.error e, tr1 ++ tr2)
      | (Except.ok b3, tr2) =>
        let b4 := postProcess b3
        match runPhaseList Phase.post mh.allNodes b4 with
        | (Except.error e, tr3) => (Except.error e, tr1 ++ tr2 ++ tr3)
        | (Except.ok b5, tr3) => (Except.ok b5, tr1 ++ tr2 ++ tr3)

/-- What `MessageHandler.handle` produces: the response (absent for silent
drops), the observable handler invocations, and the log lines the claims
mention. -/
structure HandleOutcome where
  response : Option CSMessage
  trace : List Event
  logs : List String
deriving DecidableEq, Repr

/-- The method `MessageHandler.handle`: classification and drop rules (spec §4.1 steps
1-3), then the pipeline, then the abort-signal handling of spec §7. -/
def MessageHandler.handle (mh : MessageHandler) (request : CSMessage)
    (received_over_multicast : Bool) (marks : List String) : HandleOutcome :=
  if fromClientToServer request.msgType = false then
    HandleOutcome.mk none [] ["A server should not receive this message type"]
  else if accepted request.msgType = false then
    HandleOutcome.mk none [] ["Do not know how to reply to this message type"]
  else if request.msgType = MsgType.confirm ∧ request.hasIAOption = false then
    HandleOutcome.mk none [] []
  else
    match runPipeline mh (mkBundle mh request received_over_multicast marks) with
    | (Except.error HandlerError.cannotRespond, tr) => HandleOutcome.mk none tr []
    | (Except.error HandlerError.useMulticast, tr) =>
      if received_over_multicast then
        HandleOutcome.mk none tr ["Not telling client to use multicast"]
      else
        HandleOutcome.mk (some (useMulticastReply mh request)) tr []
    | (Except.ok b, tr) => HandleOutcome.mk b.response tr []

/-!
Supporting lemmas about the pipeline.
-/

mutual

/-- The handler ids reachable inside a tree node. -/
def Node.ids : Node → List Nat
  | .handler h => [h.id]
  | .filter _ children => Node.idsList children

/-- The handler ids reachable inside a list of tree nodes, in order. -/
def Node.idsList : List Node → List Nat
  | [] => []
  | n :: rest => Node.ids n ++ Node.idsList rest

end

/-- Bundle `b2` agrees with `b` on everything except the fields a well-behaved
handler may touch (marks and the unicast permission flag). -/
def BundleAgrees (b b2 : Bundle) : Prop :=
  b2.request = b.request ∧ b2.response = b.response ∧
  b2.incoming_relay_messages = b.incoming_relay_messages ∧
  b2.outgoing_relay_messages = b.outgoing_relay_messages ∧
  b2.received_over_multicast = b.received_over_multicast ∧
  b2.allow_rapid_commit = b.allow_rapid_commit ∧
  b2.rapid_commit_rejections = b.rapid_commit_rejections

theorem BundleAgrees.refl (b : Bundle) : BundleAgrees b b :=
  ⟨rfl, rfl, rfl, rfl, rfl, rfl, rfl⟩

theorem BundleAgrees.trans {a b c : Bundle} (h1 : BundleAgrees a b) (h2 : BundleAgrees b c) :
    BundleAgrees a c := by
  obtain ⟨x1, x2, x3, x4, x5, x6, x7⟩ := h1
  obtain ⟨y1, y2, y3, y4, y5, y6, y7⟩ := h2
  exact ⟨y1.trans x1, y2.trans x2, y3.trans x3, y4.trans x4, y5.trans x5, y6.trans x6,
    y7.trans x7⟩

/-- A handler is tame when each phase method succeeds and only touches marks
or the unicast permission flag.  The pre-set mark-contributing handlers of
the test suite are of this shape. -/
def SHandler.Tame (h : SHandler) : Prop :=
  ∀ φ b, ∃ b2, h.run φ b = Except.ok b2 ∧ BundleAgrees b b2

mutual

/-- All handlers inside a tree node are tame. -/
def Node.TameN : Node → Prop
  | .handler h => h.Tame
  | .filter _ children => Node.TameNList children

/-- All handlers inside a list of tree nodes are tame. -/
def Node.TameNList : List Node → Prop
  | [] => True
  | n :: rest => Node.TameN n ∧ Node.TameNList rest

end

mutual

/-- Every event emitted by one phase of a node carries that phase and an id
from the node. -/
theorem runPhaseNode_events (φ : Phase) (n : Node) (b : Bundle) :
    ∀ e ∈ (runPhaseNode φ n b).2, e.phase = φ ∧ e.hid ∈ Node.ids n := by
  match n with
  | .handler h =>
    intro e he
    simp only [runPhaseNode, List.mem_singleton] at he
    subst he
    exact ⟨rfl, by simp [Node.ids]⟩
  | .filter cond children =>
    intro e he
    simp only [runPhaseNode] at he
    by_cases hc : cond b
    · rw [if_pos hc] at he
      exact runPhaseList_events φ children b e he
    · rw [if_neg hc] at he
      simp at he

/-- Every event emitted by one phase of a node list carries that phase and an
id from the list. -/
theorem runPhaseList_events (φ : Phase) (ns : List Node) (b : Bundle) :
    ∀ e ∈ (runPhaseList φ ns b).2, e.phase = φ ∧ e.hid ∈ Node.idsList ns := by
  match ns with
  | [] =>
    intro e he
    simp [runPhaseList] at he
  | n :: rest =>
    intro e he
    simp only [runPhaseList] at he
    rcases hn : runPhaseNode φ n b with ⟨r, ev⟩
    rw [hn] at he
    match r with
    | Except.ok b2 =>
      simp only [List.mem_append] at he
      rcases he with he | he
      · have := runPhaseNode_events φ n b e (by rw [hn]; exact he)
        exact ⟨this.1, by simp [Node.idsList, this.2]⟩
      · have := runPhaseList_events φ rest b2 e he
        exact ⟨this.1, by simp [Node.idsList, this.2]⟩
    | Except.error er =>
      have := runPhaseNode_events φ n b e (by rw [hn]; exact he)
      exact ⟨this.1, by simp [Node.idsList, this.2]⟩

end

/-- The events of a phase over a concatenated node list split into a part
from the first list followed by a part from the second. -/
theorem runPhaseList_append_events (φ : Phase) (ns1 ns2 : List Node) (b : Bundle) :
    ∃ t1 t2, (runPhaseList φ (ns1 ++ ns2) b).2 = t1 ++ t2 ∧
      (∀ e ∈ t1, e.hid ∈ Node.idsList ns1) ∧ (∀ e ∈ t2, e.hid ∈ Node.idsList ns2) := by
  induction ns1 generalizing b with
  | nil =>
    refine ⟨[], (runPhaseList φ ns2 b).2, by simp, by simp, ?_⟩
    intro e he
    exact (runPhaseList_events φ ns2 b e he).2
  | cons n rest ih =>
    simp only [List.cons_append, runPhaseList]
    rcases hn : runPhaseNode φ n b with ⟨r, ev⟩
    have hev : ∀ e ∈ ev, e.hid ∈ Node.idsList (n :: rest) := by
      intro e he
      have := runPhaseNode_events φ n b e (by rw [hn]; exact he)
      simp [Node.idsList, this.2]
    match r with
    | Except.ok b2 =>
      obtain ⟨t1, t2, heq, h1, h2⟩ := ih b2
      refine ⟨ev ++ t1, t2, by simp [heq], ?_, h2⟩
      intro e he
      rcases List.mem_append.mp he with he | he
      · exact hev e he
      · have := h1 e he
        simp only [Node.idsList, List.mem_append]
        exact Or.inr this
    | Except.error er =>
      exact ⟨ev, [], by simp, hev, by simp⟩

mutual

/-- A phase of a tame node completes, only touches marks or the unicast flag,
and every emitted event observed the (unchanged) response of entry. -/
theorem runPhaseNode_tame (φ : Phase) (n : Node) (hn : Node.TameN n) (b : Bundle) :
    ∃ b2, (runPhaseNode φ n b).1 = Except.ok b2 ∧ BundleAgrees b b2 ∧
      ∀ e ∈ (runPhaseNode φ n b).2, e.responseSeen = b.response.map CSMessage.msgType := by
  match n with
  | .handler h =>
    obtain ⟨b2, hrun, hag⟩ := hn φ b
    refine ⟨b2, by simp [runPhaseNode, hrun], hag, ?_⟩
    intro e he
    simp only [runPhaseNode, List.mem_singleton] at he
    subst he
    rfl
  | .filter cond children =>
    by_cases hc : cond b
    · have hrec := runPhaseList_tame φ children hn b
      simpa only [runPhaseNode, if_pos hc] using hrec
    · exact ⟨b, by simp [runPhaseNode, if_neg hc], BundleAgrees.refl b,
        by simp [runPhaseNode, if_neg hc]⟩

/-- A phase of a list of tame nodes completes, only touches marks or the
unicast flag, and every emitted event observed the response of entry. -/
theorem runPhaseList_tame (φ : Phase) (ns : List Node) (hn : Node.TameNList ns) (b : Bundle) :
    ∃ b2, (runPhaseList φ ns b).1 = Except.ok b2 ∧ BundleAgrees b b2 ∧
      ∀ e ∈ (runPhaseList φ ns b).2, e.responseSeen = b.response.map CSMessage.msgType := by
  match ns with
  | [] => exact ⟨b, by simp [runPhaseList], BundleAgrees.refl b, by simp [runPhaseList]⟩
  | n :: rest =>
    obtain ⟨hn1, hn2⟩ := hn
    obtain ⟨b2, hok, hag, hev⟩ := runPhaseNode_tame φ n hn1 b
    obtain ⟨b3, hok2, hag2, hev2⟩ := runPhaseList_tame φ rest hn2 b2
    rcases hrn : runPhaseNode φ n b with ⟨r, ev⟩
    rw [hrn] at hok hev
    simp only at hok hev
    subst hok
    refine ⟨b3, ?_, hag.trans hag2, ?_⟩
    · simp only [runPhaseList, hrn, hok2]
    · intro e he
      simp only [runPhaseList, hrn, List.mem_append] at he
      rcases he with he | he
      · exact hev e he
      · rw [hev2 e he, hag.2.1]

end

/-- The rapid-commit rewrite as a function of the fields it reads. -/
def ppRapid (request : CSMessage) (arc rcr : Bool) (resp : Option CSMessage) :
    Option CSMessage :=
  if request.msgType = MsgType.solicit ∧ request.hasRapidCommit ∧ arc ∧ rcr then
    resp.map fun r => { r with msgType := MsgType.reply }
  else resp

/-- The confirmation status step as a function of the fields it reads. -/
def ppConfirm (request : CSMessage) (resp : Option CSMessage) : Option CSMessage :=
  if request.msgType = MsgType.confirm ∧
      (match resp with
       | some r => r.statusCodes.isEmpty
       | none => true) = true then
    resp.map fun r => { r with options := r.options ++ [Opt.statusCode STATUS_NOTONLINK] }
  else resp

/-- The IA materialisation step as a function of the fields it reads. -/
def ppCopy (request : CSMessage) (resp : Option CSMessage) : Option CSMessage :=
  resp.map fun r => { r with options := r.options ++ iaCopyAdditions request.options r.options }

/-- The default-deny status step as a function of the fields it reads. -/
def ppStatus (resp : Option CSMessage) : Option CSMessage :=
  resp.map fun r => { r with options := r.options.map fixOpt }

/-- The whole post-tree rewrite at the level of the response value. -/
def ppResponse (request : CSMessage) (arc rcr : Bool) (resp : Option CSMessage) :
    Option CSMessage :=
  ppStatus (ppCopy request (ppConfirm request (ppRapid request arc rcr resp)))

theorem rapidRewrite_fields (b : Bundle) :
    (rapidRewrite b).request = b.request ∧
    (rapidRewrite b).allow_rapid_commit = b.allow_rapid_commit ∧
    (rapidRewrite b).rapid_commit_rejections = b.rapid_commit_rejections ∧
    (rapidRewrite b).response =
      ppRapid b.request b.allow_rapid_commit b.rapid_commit_rejections b.response := by
  unfold rapidRewrite ppRapid
  split
  · cases hr : b.response <;> simp [hr]
  · simp

theorem respSetOptions_fields (b : Bundle) (f : List Opt → List Opt) :
    (respSetOptions b f).request = b.request ∧
    (respSetOptions b f).allow_rapid_commit = b.allow_rapid_commit ∧
    (respSetOptions b f).rapid_commit_rejections = b.rapid_commit_rejections ∧
    (respSetOptions b f).response = b.response.map (fun r => { r with options := f r.options }) := by
  unfold respSetOptions
  cases hr : b.response <;> simp [hr]

theorem confirmStep_fields (b : Bundle) :
    (confirmStep b).request = b.request ∧
    (confirmStep b).allow_rapid_commit = b.allow_rapid_commit ∧
    (confirmStep b).rapid_commit_rejections = b.rapid_commit_rejections ∧
    (confirmStep b).response = ppConfirm b.request b.response := by
  unfold confirmStep ppConfirm respHasNoStatus
  split
  · exact respSetOptions_fields b _
  · simp

theorem iaCopyStep_fields (b : Bundle) :
    (iaCopyStep b).request = b.request ∧
    (iaCopyStep b).response = ppCopy b.request b.response := by
  unfold iaCopyStep ppCopy
  exact ⟨(respSetOptions_fields b _).1, (respSetOptions_fields b _).2.2.2⟩

theorem iaStatusStep_response (b : Bundle) :
    (iaStatusStep b).response = ppStatus b.response := by
  unfold iaStatusStep ppStatus
  exact (respSetOptions_fields b _).2.2.2

/-- The response produced by the post-tree rewrites depends only on the
request, the response and the two rapid-commit flags. -/
theorem postProcess_response (b : Bundle) :
    (postProcess b).response =
      ppResponse b.request b.allow_rapid_commit b.rapid_commit_rejections b.response := by
  unfold postProcess ppResponse
  obtain ⟨hq1, ha1, hr1, hresp1⟩ := rapidRewrite_fields b
  obtain ⟨hq2, ha2, hr2, hresp2⟩ := confirmStep_fields (rapidRewrite b)
  obtain ⟨hq3, hresp3⟩ := iaCopyStep_fields (confirmStep (rapidRewrite b))
  rw [iaStatusStep_response, hresp3, hq2, hq1, hresp2, hq1, hresp1]

/-- Two bundles agreeing on everything a handler may not touch produce the
same post-tree response. -/
theorem postProcess_response_congr {b b2 : Bundle} (h : BundleAgrees b b2) :
    (postProcess b2).response = (postProcess b).response := by
  rw [postProcess_response, postProcess_response, h.1, h.2.1, h.2.2.2.2.2.1, h.2.2.2.2.2.2]

/-- The pipeline over tame handlers: the pre phase completes; then either the
request was received over unicast without permission and the pipeline raises
the use-multicast signal, or processing completes with exactly the response
the pipeline itself constructed, and the handle-phase and post-phase events
observed that response before and after the post-tree rewrites. -/
theorem runPipeline_tame (mh : MessageHandler) (ht : Node.TameNList mh.allNodes)
    (b0 : Bundle) :
    ∃ b1 tr1, runPhaseList Phase.pre mh.allNodes b0 = (Except.ok b1, tr1) ∧
      BundleAgrees b0 b1 ∧
      ((b0.received_over_multicast = false ∧ b1.allow_unicast = false ∧
          runPipeline mh b0 = (Except.error HandlerError.useMulticast, tr1)) ∨
        ((b0.received_over_multicast = true ∨ b1.allow_unicast = true) ∧
          ∃ b5 tr2 tr3,
            runPipeline mh b0 = (Except.ok b5, tr1 ++ tr2 ++ tr3) ∧
            b5.response = (postProcess (initResponse mh b1)).response ∧
            (∀ e ∈ tr2, e.phase = Phase.handle ∧ e.responseSeen =
              ((initResponse mh b1).response.map CSMessage.msgType)) ∧
            (∀ e ∈ tr3, e.phase = Phase.post ∧ e.responseSeen =
              ((postProcess (initResponse mh b1)).response.map CSMessage.msgType)))) := by
  obtain ⟨b1, hok1, hag1, _⟩ := runPhaseList_tame Phase.pre mh.allNodes ht b0
  rcases hrun1 : runPhaseList Phase.pre mh.allNodes b0 with ⟨r1, tr1⟩
  rw [hrun1] at hok1
  simp only at hok1
  subst hok1
  refine ⟨b1, tr1, rfl, hag1, ?_⟩
  have hmul : b1.received_over_multicast = b0.received_over_multicast := hag1.2.2.2.2.1
  by_cases hcond : b0.received_over_multicast = false ∧ b1.allow_unicast = false
  · left
    refine ⟨hcond.1, hcond.2, ?_⟩
    simp only [runPipeline, hrun1]
    rw [if_pos (by rw [hmul]; exact hcond)]
  · right
    constructor
    · rcases hb0 : b0.received_over_multicast with _ | _
      · right
        rcases hb1 : b1.allow_unicast with _ | _
        · exact absurd ⟨hb0, hb1⟩ hcond
        · rfl
      · left
        rfl
    · have hcond2 : ¬(b1.received_over_multicast = false ∧ b1.allow_unicast = false) := by
        rw [hmul]
        exact hcond
      obtain ⟨b3, hok2, hag2, hev2⟩ :=
        runPhaseList_tame Phase.handle mh.allNodes ht (initResponse mh b1)
      rcases hrun2 : runPhaseList Phase.handle mh.allNodes (initResponse mh b1) with ⟨r2, tr2⟩
      rw [hrun2] at hok2 hev2
      simp only at hok2 hev2
      subst hok2
      obtain ⟨b5, hok3, hag3, hev3⟩ :=
        runPhaseList_tame Phase.post mh.allNodes ht (postProcess b3)
      rcases hrun3 : runPhaseList Phase.post mh.allNodes (postProcess b3) with ⟨r3, tr3⟩
      rw [hrun3] at hok3 hev3
      simp only at hok3 hev3
      subst hok3
      have hpp : (postProcess b3).response = (postProcess (initResponse mh b1)).response := by
        rw [postProcess_response_congr hag2]
      have hph2 : ∀ e ∈ tr2, e.phase = Phase.handle := by
        intro e he
        have := runPhaseList_events Phase.handle mh.allNodes (initResponse mh b1)
        rw [hrun2] at this
        exact (this e he).1
      have hph3 : ∀ e ∈ tr3, e.phase = Phase.post := by
        intro e he
        have := runPhaseList_events Phase.post mh.allNodes (postProcess b3)
        rw [hrun3] at this
        exact (this e he).1
      refine ⟨b5, tr2, tr3, ?_, ?_, ?_, ?_⟩
      · simp only [runPipeline, hrun1, if_neg hcond2, hrun2, hrun3]
      · rw [hag3.2.1, hpp]
      · intro e he
        exact ⟨hph2 e he, hev2 e he⟩
      · intro e he
        exact ⟨hph3 e he, by rw [hev3 e he, hpp]⟩

theorem fixOpt_serverIdProj (o : Opt) : serverIdProj (fixOpt o) = serverIdProj o := by
  cases o <;> simp only [fixOpt] <;> first
    | rfl
    | split <;> rfl

theorem fixOpt_statusProj (o : Opt) : statusProj (fixOpt o) = statusProj o := by
  cases o <;> simp only [fixOpt] <;> first
    | rfl
    | split <;> rfl

theorem filterMap_map_fixOpt_server (l : List Opt) :
    (l.map fixOpt).filterMap serverIdProj = l.filterMap serverIdProj := by
  induction l with
  | nil => rfl
  | cons o l ih => simp [List.filterMap_cons, fixOpt_serverIdProj o, ih]

theorem filterMap_map_fixOpt_status (l : List Opt) :
    (l.map fixOpt).filterMap statusProj = l.filterMap statusProj := by
  induction l with
  | nil => rfl
  | cons o l ih => simp [List.filterMap_cons, fixOpt_statusProj o, ih]

theorem iaCopyAdditions_server (reqOpts respOpts : List Opt) :
    (iaCopyAdditions reqOpts respOpts).filterMap serverIdProj = [] := by
  rw [List.filterMap_eq_nil_iff]
  intro o ho
  rw [iaCopyAdditions, List.mem_filterMap] at ho
  obtain ⟨a, _, ha⟩ := ho
  split at ha <;>
    first
      | exact Option.noConfusion ha
      | (split at ha <;>
          first
            | exact Option.noConfusion ha
            | (injection ha with h
               subst h
               rfl))

theorem iaCopyAdditions_status (reqOpts respOpts : List Opt) :
    (iaCopyAdditions reqOpts respOpts).filterMap statusProj = [] := by
  rw [List.filterMap_eq_nil_iff]
  intro o ho
  rw [iaCopyAdditions, List.mem_filterMap] at ho
  obtain ⟨a, _, ha⟩ := ho
  split at ha <;>
    first
      | exact Option.noConfusion ha
      | (split at ha <;>
          first
            | exact Option.noConfusion ha
            | (injection ha with h
               subst h
               rfl))

/-- The post-tree rewrites keep the identification options intact: the
ServerIdOption list is untouched, any ClientIdOption stays, the top-level
status list at most gains the not-on-link code, the final option list went
through the default-deny pass, and the message type is the rapid-commit
promotion of the input's. -/
theorem ppResponse_some (request : CSMessage) (arc rcr : Bool) (r : CSMessage) :
    ∃ r2, ppResponse request arc rcr (some r) = some r2 ∧
      r2.options.filterMap serverIdProj = r.options.filterMap serverIdProj ∧
      (∀ c, Opt.clientId c ∈ r.options → Opt.clientId c ∈ r2.options) ∧
      (r2.options.filterMap statusProj = r.options.filterMap statusProj ∨
        r2.options.filterMap statusProj =
          r.options.filterMap statusProj ++ [STATUS_NOTONLINK]) ∧
      (∃ l : List Opt, r2.options = l.map fixOpt) ∧
      r2.msgType = (if request.msgType = MsgType.solicit ∧ request.hasRapidCommit = true ∧
          arc = true ∧ rcr = true then MsgType.reply else r.msgType) := by
  obtain ⟨rA, hA, hAopts, hAty⟩ :
      ∃ rA, ppRapid request arc rcr (some r) = some rA ∧ rA.options = r.options ∧
        rA.msgType = (if request.msgType = MsgType.solicit ∧ request.hasRapidCommit = true ∧
          arc = true ∧ rcr = true then MsgType.reply else r.msgType) := by
    unfold ppRapid
    split
    · exact ⟨_, rfl, rfl, rfl⟩
    · exact ⟨r, rfl, rfl, rfl⟩
  obtain ⟨rB, hB, hBopts, hBty⟩ :
      ∃ rB, ppConfirm request (some rA) = some rB ∧
        (rB.options = rA.options ∨ rB.options = rA.options ++ [Opt.statusCode STATUS_NOTONLINK]) ∧
        rB.msgType = rA.msgType := by
    unfold ppConfirm
    split
    · exact ⟨_, rfl, Or.inr rfl, rfl⟩
    · exact ⟨rA, rfl, Or.inl rfl, rfl⟩
  refine ⟨CSMessage.mk rB.msgType rB.transaction_id
      ((rB.options ++ iaCopyAdditions request.options rB.options).map fixOpt), ?_, ?_, ?_, ?_,
      ⟨rB.options ++ iaCopyAdditions request.options rB.options, rfl⟩, ?_⟩
  · rw [ppResponse, hA, hB]
    rfl
  · simp only
    rw [filterMap_map_fixOpt_server, List.filterMap_append, iaCopyAdditions_server,
      List.append_nil]
    rcases hBopts with h | h <;>
      simp [h, hAopts, List.filterMap_append, serverIdProj, List.filterMap_cons]
  · intro c hc
    simp only
    have h1 : Opt.clientId c ∈ rB.options := by
      rcases hBopts with h | h <;> rw [h, hAopts] <;> simp [hc]
    exact List.mem_map.mpr ⟨Opt.clientId c, by simp [h1], rfl⟩
  · simp only
    rw [filterMap_map_fixOpt_status, List.filterMap_append, iaCopyAdditions_status,
      List.append_nil]
    rcases hBopts with h | h
    · left
      rw [h, hAopts]
    · right
      rw [h, hAopts, List.filterMap_append]
      rfl
  · simp only
    rw [hBty, hAty]

theorem clientIdOpts_filterMap_server (request : CSMessage) :
    (clientIdOpts request).filterMap serverIdProj = [] := by
  unfold clientIdOpts
  cases request.clientIdOpt <;> rfl

theorem clientIdOpts_filterMap_status (request : CSMessage) :
    (clientIdOpts request).filterMap statusProj = [] := by
  unfold clientIdOpts
  cases request.clientIdOpt <;> rfl

theorem clientIdOpts_mem (request : CSMessage) (c : Nat)
    (hc : request.clientIdOpt = some c) : Opt.clientId c ∈ clientIdOpts request := by
  unfold clientIdOpts
  rw [hc]
  exact List.mem_singleton.mpr rfl

/-- The use-multicast reply carries exactly this server's id, exactly the
use-multicast status, and the client's id when the request had one. -/
theorem useMulticastReply_props (mh : MessageHandler) (request : CSMessage) :
    (useMulticastReply mh request).serverIds = [mh.server_duid] ∧
    (useMulticastReply mh request).statusCodes = [STATUS_USEMULTICAST] ∧
    ∀ c, request.clientIdOpt = some c →
      Opt.clientId c ∈ (useMulticastReply mh request).options := by
  refine ⟨?_, ?_, ?_⟩
  · show ((clientIdOpts request ++ _).filterMap serverIdProj) = _
    rw [List.filterMap_append, clientIdOpts_filterMap_server]
    rfl
  · show ((clientIdOpts request ++ _).filterMap statusProj) = _
    rw [List.filterMap_append, clientIdOpts_filterMap_status]
    rfl
  · intro c hc
    exact List.mem_append_left _ (clientIdOpts_mem request c hc)

/-- Every response the message handler emits is either absent, the
use-multicast reply, or the post-tree rewrite of the pipeline-initialised
response. -/
theorem handle_response_cases (mh : MessageHandler) (request : CSMessage) (multicast : Bool)
    (marks : List String) (ht : Node.TameNList mh.allNodes) :
    (mh.handle request multicast marks).response = none ∨
    (mh.handle request multicast marks).response = some (useMulticastReply mh request) ∨
    (mh.handle request multicast marks).response =
      ppResponse request mh.allow_rapid_commit mh.rapid_commit_rejections
        (some (CSMessage.mk (responseTypeFor request.msgType) request.transaction_id
          (clientIdOpts request ++ [Opt.serverId mh.server_duid]))) := by
  simp only [MessageHandler.handle]
  split
  · exact Or.inl rfl
  split
  · exact Or.inl rfl
  split
  · exact Or.inl rfl
  obtain ⟨b1, tr1, hpre, hag1, hcases⟩ :=
    runPipeline_tame mh ht (mkBundle mh request multicast marks)
  rcases hcases with ⟨hm, hau, hpl⟩ | ⟨hcond, b5, tr2, tr3, hpl, hresp, hev2, hev3⟩
  · rw [hpl]
    have hmul : multicast = false := hm
    subst hmul
    exact Or.inr (Or.inl rfl)
  · rw [hpl]
    refine Or.inr (Or.inr ?_)
    show b5.response = _
    rw [hresp, postProcess_response]
    show ppResponse b1.request b1.allow_rapid_commit b1.rapid_commit_rejections
      (some (CSMessage.mk (responseTypeFor b1.request.msgType) b1.request.transaction_id
        (clientIdOpts b1.request ++ [Opt.serverId mh.server_duid]))) = _
    rw [hag1.1, hag1.2.2.2.2.2.1, hag1.2.2.2.2.2.2]
    rfl

/-- The events of a phase over three concatenated node lists split into three
ordered parts, one per list. -/
theorem runPhaseList_append3_events (φ : Phase) (ns1 ns2 ns3 : List Node) (b : Bundle) :
    ∃ t1 t2 t3, (runPhaseList φ (ns1 ++ (ns2 ++ ns3)) b).2 = t1 ++ t2 ++ t3 ∧
      (∀ e ∈ t1, e.hid ∈ Node.idsList ns1) ∧ (∀ e ∈ t2, e.hid ∈ Node.idsList ns2) ∧
      (∀ e ∈ t3, e.hid ∈ Node.idsList ns3) := by
  induction ns1 generalizing b with
  | nil =>
    obtain ⟨t2, t3, heq, h2, h3⟩ := runPhaseList_append_events φ ns2 ns3 b
    exact ⟨[], t2, t3, by simp only [List.nil_append]; rw [heq], by simp, h2, h3⟩
  | cons n rest ih =>
    simp only [List.cons_append, runPhaseList]
    rcases hn : runPhaseNode φ n b with ⟨r, ev⟩
    have hev : ∀ e ∈ ev, e.hid ∈ Node.idsList (n :: rest) := by
      intro e he
      have := runPhaseNode_events φ n b e (by rw [hn]; exact he)
      simp [Node.idsList, this.2]
    match r with
    | Except.ok b2 =>
      obtain ⟨t1, t2, t3, heq, h1, h2, h3⟩ := ih b2
      refine ⟨ev ++ t1, t2, t3, by simp [heq], ?_, h2, h3⟩
      intro e he
      rcases List.mem_append.mp he with he | he
      · exact hev e he
      · have := h1 e he
        simp only [Node.idsList, List.mem_append]
        exact Or.inr this
    | Except.error er =>
      exact ⟨ev, [], [], by simp, hev, by simp, by simp⟩

/-- The handler ids of a list of leaf handler nodes. -/
theorem idsList_map_handler (hs : List SHandler) :
    Node.idsList (hs.map Node.handler) = hs.map SHandler.id := by
  induction hs with
  | nil => rfl
  | cons h hs ih => simp [Node.idsList, Node.ids, ih]

/-- One segment of a phase-major trace: events of one phase, id-decomposed
into a setup part, a tree part and a cleanup part. -/
def PhaseSegment (mh : MessageHandler) (φ : Phase) (t : List Event) : Prop :=
  (∀ e ∈ t, e.phase = φ) ∧
  ∃ t1 t2 t3, t = t1 ++ t2 ++ t3 ∧
    (∀ e ∈ t1, e.hid ∈ mh.setup_handlers.map SHandler.id) ∧
    (∀ e ∈ t2, e.hid ∈ Node.idsList mh.sub_nodes) ∧
    (∀ e ∈ t3, e.hid ∈ mh.cleanup_handlers.map SHandler.id)

theorem phaseSegment_empty (mh : MessageHandler) (φ : Phase) : PhaseSegment mh φ [] :=
  ⟨by simp, [], [], [], by simp, by simp, by simp, by simp⟩

theorem phaseSegment_run (mh : MessageHandler) (φ : Phase) (b : Bundle) :
    PhaseSegment mh φ (runPhaseList φ mh.allNodes b).2 := by
  constructor
  · intro e he
    exact (runPhaseList_events φ mh.allNodes b e he).1
  · unfold MessageHandler.allNodes
    rw [List.append_assoc]
    obtain ⟨t1, t2, t3, heq, h1, h2, h3⟩ := runPhaseList_append3_events φ
      (mh.setup_handlers.map Node.handler) mh.sub_nodes
      (mh.cleanup_handlers.map Node.handler) b
    rw [idsList_map_handler] at h1 h3
    exact ⟨t1, t2, t3, heq, h1, h2, h3⟩

/-- Every trace the message handler produces splits into a pre segment, a
handle segment and a post segment, in this order. -/
theorem handle_trace_shape (mh : MessageHandler) (request : CSMessage) (multicast : Bool)
    (marks : List String) :
    ∃ t1 t2 t3, (mh.handle request multicast marks).trace = t1 ++ t2 ++ t3 ∧
      PhaseSegment mh Phase.pre t1 ∧ PhaseSegment mh Phase.handle t2 ∧
      PhaseSegment mh Phase.post t3 := by
  have hdrop : ∀ logs, ∃ t1 t2 t3, (HandleOutcome.mk none [] logs).trace = t1 ++ t2 ++ t3 ∧
      PhaseSegment mh Phase.pre t1 ∧ PhaseSegment mh Phase.handle t2 ∧
      PhaseSegment mh Phase.post t3 :=
    fun logs => ⟨[], [], [], rfl, phaseSegment_empty mh _, phaseSegment_empty mh _,
      phaseSegment_empty mh _⟩
  have hpipe : ∀ b0, ∃ t1 t2 t3, (runPipeline mh b0).2 = t1 ++ t2 ++ t3 ∧
      PhaseSegment mh Phase.pre t1 ∧ PhaseSegment mh Phase.handle t2 ∧
      PhaseSegment mh Phase.post t3 := by
    intro b0
    rcases h1 : runPhaseList Phase.pre mh.allNodes b0 with ⟨r1, tr1⟩
    have hs1 : PhaseSegment mh Phase.pre tr1 := by
      have := phaseSegment_run mh Phase.pre b0
      rw [h1] at this
      exact this
    match r1, h1 with
    | Except.error e, h1 =>
      simp only [runPipeline, h1]
      exact ⟨tr1, [], [], by simp, hs1, phaseSegment_empty mh _, phaseSegment_empty mh _⟩
    | Except.ok b1, h1 =>
      simp only [runPipeline, h1]
      split
      · exact ⟨tr1, [], [], by simp, hs1, phaseSegment_empty mh _, phaseSegment_empty mh _⟩
      rcases h2 : runPhaseList Phase.handle mh.allNodes (initResponse mh b1) with ⟨r2, tr2⟩
      have hs2 : PhaseSegment mh Phase.handle tr2 := by
        have := phaseSegment_run mh Phase.handle (initResponse mh b1)
        rw [h2] at this
        exact this
      match r2, h2 with
      | Except.error e, h2 =>
        simp only [h2]
        exact ⟨tr1, tr2, [], by simp, hs1, hs2, phaseSegment_empty mh _⟩
      | Except.ok b3, h2 =>
        simp only [h2]
        rcases h3 : runPhaseList Phase.post mh.allNodes (postProcess b3) with ⟨r3, tr3⟩
        have hs3 : PhaseSegment mh Phase.post tr3 := by
          have := phaseSegment_run mh Phase.post (postProcess b3)
          rw [h3] at this
          exact this
        match r3, h3 with
        | Except.error e, h3 =>
          simp only [h3]
          exact ⟨tr1, tr2, tr3, by simp, hs1, hs2, hs3⟩
        | Except.ok b5, h3 =>
          simp only [h3]
          exact ⟨tr1, tr2, tr3, by simp, hs1, hs2, hs3⟩
  simp only [MessageHandler.handle]
  split
  · exact hdrop _
  split
  · exact hdrop _
  split
  · exact hdrop _
  rcases hp : runPipeline mh (mkBundle mh request multicast marks) with ⟨rp, trp⟩
  have hsh := hpipe (mkBundle mh request multicast marks)
  rw [hp] at hsh
  obtain ⟨t1, t2, t3, heq, hs1, hs2, hs3⟩ := hsh
  match rp, hp with
  | Except.error HandlerError.cannotRespond, hp =>
    simp only [hp]
    exact ⟨t1, t2, t3, heq, hs1, hs2, hs3⟩
  | Except.error HandlerError.useMulticast, hp =>
    simp only [hp]
    split <;> exact ⟨t1, t2, t3, heq, hs1, hs2, hs3⟩
  | Except.ok b, hp =>
    simp only [hp]
    exact ⟨t1, t2, t3, heq, hs1, hs2, hs3⟩

/-- The identification invariant the spec demands of every response: exactly
one ServerIdOption carrying the configured DUID, and the request's
ClientIdOption copied verbatim. -/
def GoodIdentification (mh : MessageHandler) (request : CSMessage) :
    Option CSMessage → Prop
  | none => True
  | some r => r.serverIds = [mh.server_duid] ∧
      ∀ c, request.clientIdOpt = some c → Opt.clientId c ∈ r.options

/-- The default-deny invariant: every empty address IA carries the
no-addresses status and every empty prefix IA carries the no-prefixes
status. -/
def DefaultDenyOk : Option CSMessage → Prop
  | none => True
  | some r =>
    (∀ i subs, Opt.iana i subs ∈ r.options → hasAddrSub subs = false →
      SubOpt.statuscode STATUS_NOADDRSAVAIL ∈ subs) ∧
    (∀ i subs, Opt.iata i subs ∈ r.options → hasAddrSub subs = false →
      SubOpt.statuscode STATUS_NOADDRSAVAIL ∈ subs) ∧
    (∀ i subs, Opt.iapd i subs ∈ r.options → hasPfxSub subs = false →
      SubOpt.statuscode STATUS_NOPREFIXAVAIL ∈ subs)

/-- Mapped through the default-deny pass, an option list satisfies the
default-deny invariant. -/
theorem defaultDeny_of_map_fixOpt (l : List Opt) (r : CSMessage)
    (hopts : r.options = l.map fixOpt) : DefaultDenyOk (some r) := by
  refine ⟨?_, ?_, ?_⟩ <;>
    · intro i subs hmem hempty
      rw [hopts, List.mem_map] at hmem
      obtain ⟨o, _, ho⟩ := hmem
      cases o <;> simp only [fixOpt] at ho <;>
        first
          | exact Opt.noConfusion ho
          | (split at ho <;>
              first
                | exact Opt.noConfusion ho
                | (injection ho with h1 h2
                   subst h2
                   simp_all))

/-!
The claims.
-/

/-- Folding element-wise over a nested list is folding over its flattening;
this is the shape of the two nested loops in `combine`. -/
theorem foldl_flatMap_eq {α β : Type} (f : β → List α) (g : List α → α → List α)
    (l : List β) (init : List α) :
    l.foldl (fun acc x => (f x).foldl g acc) init = (l.flatMap f).foldl g init := by
  induction l generalizing init with
  | nil => rfl
  | cons x xs ih => simp [List.flatMap_cons, List.foldl_append, ih]

/-- A concrete `DomainSearchListOptionHandler` configured with one domain, as
in the spec scenario. -/
def dslHandlerExample : DomainSearchListOptionHandler :=
  DomainSearchListOptionHandler.mk (DomainSearchListOption.mk ["example.com"])

/-- C1: `RecursiveNameServersOptionHandler.combine` does return a single
option holding the order-preserving deduplicated concatenation of the
inherited addresses followed by its own; but
`DomainSearchListOptionHandler.combine` reads `self.option.dns_servers`
(line 81), an attribute `DomainSearchListOption` does not have, so instead of
appending the search-list domains it raises `AttributeError` on every call —
the code contradicts the spec, which flags this line as a bug. -/
theorem dns_combine_contract :
    (∀ (h : RecursiveNameServersOptionHandler)
        (existing_options : List RecursiveNameServersOption),
      (h.combine existing_options).dns_servers =
        firstDedup ((existing_options.flatMap RecursiveNameServersOption.dns_servers) ++
          h.option.dns_servers)) ∧
    dslHandlerExample.combine [] =
      Except.error
        "AttributeError: DomainSearchListOption object has no attribute dns_servers" := by
  constructor
  · intro h existing_options
    show (h.option.dns_servers.foldl appendIfAbsent
      (existing_options.foldl
        (fun acc opt => opt.dns_servers.foldl appendIfAbsent acc) [])) = _
    rw [foldl_flatMap_eq RecursiveNameServersOption.dns_servers appendIfAbsent
      existing_options [], ← List.foldl_append, foldl_appendIfAbsent_nil]
  · rfl

/-- Reads of every pre-existing list object are unchanged. -/
def FramePreserved {α : Type} (s s2 : Store α) : Prop :=
  ∀ r, r < s.cells.length → s2.read r = s.read r

/-- C10: at store level, neither `combine` writes to any list object it was
given: after the call every pre-existing cell reads as before.  The
`RecursiveNameServersOptionHandler.combine` result is a newly allocated
object (its address is fresh) holding the combined list; the
`DomainSearchListOptionHandler.combine` call mutates nothing either, raising
before any result object is produced. -/
theorem dns_combine_no_mutation {α : Type} [DecidableEq α] (s : Store α) (selfRef : Nat)
    (existing existing2 : List Nat) (hself : selfRef < s.cells.length)
    (hex : ∀ r ∈ existing, r < s.cells.length)
    (hex2 : ∀ r ∈ existing2, r < s.cells.length) :
    (FramePreserved s (RecursiveNameServersOptionHandler.combineS s selfRef existing).1 ∧
      ¬ (RecursiveNameServersOptionHandler.combineS s selfRef existing).2 < s.cells.length ∧
      (RecursiveNameServersOptionHandler.combineS s selfRef existing).1.read
          (RecursiveNameServersOptionHandler.combineS s selfRef existing).2 =
        combinePure (s.read selfRef) (existing.map s.read)) ∧
    (FramePreserved s (DomainSearchListOptionHandler.combineS s existing2).1 ∧
      (DomainSearchListOptionHandler.combineS s existing2).2 =
        Except.error
          "AttributeError: DomainSearchListOption object has no attribute dns_servers") := by
  rw [RecursiveNameServersOptionHandler.combineS_spec_rns s selfRef existing hself hex,
    DomainSearchListOptionHandler.combineS_spec_dsl s existing2 hex2]
  refine ⟨⟨?_, ?_, ?_⟩, ?_, rfl⟩
  · intro r hr
    exact Store.read_snoc_lt s.cells _ r hr
  · exact Nat.lt_irrefl s.cells.length
  · exact Store.read_snoc_self s.cells _
  · intro r hr
    exact Store.read_snoc_lt s.cells _ r hr

/-- A concrete store of two address-list objects. -/
def storeExample : Store Nat := Store.mk [[1, 2], [2, 3]]

/-- Witness for the frame property at a concrete store: the handler's list is
cell 0, one existing option's list is cell 1. -/
theorem dns_combine_no_mutation_witness :
    0 < storeExample.cells.length ∧ (∀ r ∈ [1], r < storeExample.cells.length) ∧
    (FramePreserved storeExample
        (RecursiveNameServersOptionHandler.combineS storeExample 0 [1]).1 ∧
      ¬ (RecursiveNameServersOptionHandler.combineS storeExample 0 [1]).2 <
        storeExample.cells.length ∧
      (RecursiveNameServersOptionHandler.combineS storeExample 0 [1]).1.read
          (RecursiveNameServersOptionHandler.combineS storeExample 0 [1]).2 =
        combinePure (storeExample.read 0) ([1].map storeExample.read)) ∧
    (FramePreserved storeExample
        (DomainSearchListOptionHandler.combineS storeExample [1]).1 ∧
      (DomainSearchListOptionHandler.combineS storeExample [1]).2 =
        Except.error
          "AttributeError: DomainSearchListOption object has no attribute dns_servers") :=
  ⟨by decide, by decide,
    dns_combine_no_mutation storeExample 0 [1] [1] (by decide) (by decide) (by decide)⟩

/-- C8: for every domain whose labels are 1 to 63 bytes and whose encoded
form (trailing root label included) is at most 255 bytes, encoding succeeds
and parsing the encoding returns the domain and consumes the entire buffer;
the same round-trip holds for domain lists via `encode_domain_list` and
`parse_domain_list_bytes`. -/
theorem domain_codec_roundtrip (d : Domain) (ds : List Domain)
    (hv : ValidLabels d) (hlen : (encodeLabels d).length ≤ 255)
    (hds : ∀ x ∈ ds, ValidLabels x ∧ (encodeLabels x).length ≤ 255) :
    (encode_domain d = Except.ok (encodeLabels d) ∧
      parse_domain_bytes (encodeLabels d) = Except.ok ((encodeLabels d).length, d)) ∧
    (encode_domain_list ds = Except.ok (ds.flatMap encodeLabels) ∧
      parse_domain_list_bytes (ds.flatMap encodeLabels) =
        Except.ok ((ds.flatMap encodeLabels).length, ds)) := by
  refine ⟨⟨encode_domain_ok d hv hlen, ?_⟩,
    encode_domain_list_ok ds hds, parse_domain_list_encode ds hds⟩
  have h := parse_domain_bytes_encode d [] hv hlen
  rw [List.append_nil] at h
  exact h

/-- The label list of the test fixture domain, in bytes:
`10-ww.steffann.nl`. -/
def domainExample : Domain :=
  [[49, 48, 45, 119, 119], [115, 116, 101, 102, 102, 97, 110, 110], [110, 108]]

/-- The label lists of the test fixture domain list, in bytes:
`google.com` and `10ww.steffann.nl`. -/
def domainListExample : List Domain :=
  [[[103, 111, 111, 103, 108, 101], [99, 111, 109]],
    [[49, 48, 119, 119], [115, 116, 101, 102, 102, 97, 110, 110], [110, 108]]]

/-- Witness for the codec round-trip at the unit-test fixtures; the encoding
of `10-ww.steffann.nl` is the test vector
`05 31 30 2d 77 77 08 73 74 65 66 66 61 6e 6e 02 6e 6c 00`. -/
theorem domain_codec_roundtrip_witness :
    ValidLabels domainExample ∧ (encodeLabels domainExample).length ≤ 255 ∧
    encodeLabels domainExample =
      [5, 49, 48, 45, 119, 119, 8, 115, 116, 101, 102, 102, 97, 110, 110, 2, 110, 108, 0] ∧
    ((encode_domain domainExample = Except.ok (encodeLabels domainExample) ∧
      parse_domain_bytes (encodeLabels domainExample) =
        Except.ok ((encodeLabels domainExample).length, domainExample)) ∧
    (encode_domain_list domainListExample =
        Except.ok (domainListExample.flatMap encodeLabels) ∧
      parse_domain_list_bytes (domainListExample.flatMap encodeLabels) =
        Except.ok ((domainListExample.flatMap encodeLabels).length, domainListExample))) :=
  ⟨by decide, by decide, by decide,
    domain_codec_roundtrip domainExample domainListExample (by decide) (by decide) (by decide)⟩

/-- The trace component of the relay fold: the recorded call pairs are the
initial record followed by every pair of the list, in order. -/
theorem relay_foldl_trace (handle_relay : Bundle → RelayMsg → RelayMsg → Bundle)
    (pairs : List (RelayMsg × RelayMsg)) (b : Bundle) (acc : List (RelayMsg × RelayMsg)) :
    (pairs.foldl (fun acc p => (handle_relay acc.1 p.1 p.2, acc.2 ++ [p])) (b, acc)).2 =
      acc ++ pairs := by
  induction pairs generalizing b acc with
  | nil => simp
  | cons p ps ih => simp [ih]

/-- C7: `RelayHandler.handle` is a guarded no-op (bundle unchanged, no
`handle_relay` call recorded) when the outgoing chain is absent or of a
different length than the incoming chain; otherwise it calls `handle_relay`
exactly once per index-matched pair, in chain order. -/
theorem relay_handler_pairing (handle_relay : Bundle → RelayMsg → RelayMsg → Bundle)
    (bundle : Bundle) :
    (bundle.outgoing_relay_messages = none →
      RelayHandler.handle handle_relay bundle = (bundle, [])) ∧
    (∀ outgoing, bundle.outgoing_relay_messages = some outgoing →
      bundle.incoming_relay_messages.length ≠ outgoing.length →
      RelayHandler.handle handle_relay bundle = (bundle, [])) ∧
    (∀ outgoing, bundle.outgoing_relay_messages = some outgoing →
      bundle.incoming_relay_messages.length = outgoing.length →
      (RelayHandler.handle handle_relay bundle).2 =
        bundle.incoming_relay_messages.zip outgoing) := by
  refine ⟨?_, ?_, ?_⟩
  · intro h
    simp [RelayHandler.handle, h]
  · intro outgoing h hne
    simp [RelayHandler.handle, h, hne]
  · intro outgoing h heq
    simp only [RelayHandler.handle, h, heq, ne_eq, not_true_eq_false, if_false]
    rw [relay_foldl_trace]
    simp

/-- A concrete relayed bundle: two inbound frames and a matching outbound
chain. -/
def relayBundleExample : Bundle :=
  { request := CSMessage.mk MsgType.solicit 1 []
    incoming_relay_messages := [RelayMsg.mk 1 10 11, RelayMsg.mk 0 20 21]
    response := none
    outgoing_relay_messages := some [RelayMsg.mk 1 10 11, RelayMsg.mk 0 20 21]
    marks := []
    received_over_multicast := true
    allow_unicast := false
    allow_rapid_commit := false
    rapid_commit_rejections := false }

/-- Witness: on the concrete relayed bundle the recorded `handle_relay` calls
are exactly the index-matched pairs, in chain order. -/
theorem relay_handler_pairing_witness :
    relayBundleExample.outgoing_relay_messages =
      some [RelayMsg.mk 1 10 11, RelayMsg.mk 0 20 21] ∧
    relayBundleExample.incoming_relay_messages.length =
      [RelayMsg.mk 1 10 11, RelayMsg.mk 0 20 21].length ∧
    (RelayHandler.handle (fun b _ _ => b) relayBundleExample).2 =
      relayBundleExample.incoming_relay_messages.zip
        [RelayMsg.mk 1 10 11, RelayMsg.mk 0 20 21] :=
  ⟨by decide, by decide,
    (relay_handler_pairing (fun b _ _ => b) relayBundleExample).2.2
      [RelayMsg.mk 1 10 11, RelayMsg.mk 0 20 21] (by decide) (by decide)⟩

/-- Numeric position of a phase in the pipeline's phase order. -/
def phaseIdx : Phase → Nat
  | .pre => 0
  | .handle => 1
  | .post => 2

/-- The ordering claimed by the spec: every setup-handler event strictly
precedes every tree event, and every tree event strictly precedes every
cleanup event. -/
def ListMajorOrder (setupIds treeIds cleanupIds : List Nat) (tr : List Event) : Prop :=
  (∀ i j : Fin tr.length, (tr.get i).hid ∈ setupIds → (tr.get j).hid ∈ treeIds →
    i.val < j.val) ∧
  (∀ i j : Fin tr.length, (tr.get i).hid ∈ treeIds → (tr.get j).hid ∈ cleanupIds →
    i.val < j.val)

instance (s t c : List Nat) (tr : List Event) : Decidable (ListMajorOrder s t c tr) := by
  unfold ListMajorOrder
  infer_instance

/-- A handler that does nothing in all three phases. -/
def idHandler (i : Nat) : SHandler :=
  SHandler.mk i (fun b => Except.ok b) (fun b => Except.ok b) (fun b => Except.ok b)

theorem idHandler_tame (i : Nat) : (idHandler i).Tame := by
  intro φ b
  refine ⟨b, ?_, BundleAgrees.refl b⟩
  cases φ <;> rfl

/-- A message handler with one extension setup handler (id 0), one configured
tree handler (id 1) and one extension cleanup handler (id 2). -/
def mhExample : MessageHandler :=
  { server_duid := 42
    setup_handlers := [idHandler 0]
    sub_nodes := [Node.handler (idHandler 1)]
    cleanup_handlers := [idHandler 2]
    allow_rapid_commit := false
    rapid_commit_rejections := false }

theorem mhExample_tame : Node.TameNList mhExample.allNodes :=
  ⟨idHandler_tame 0, idHandler_tame 1, idHandler_tame 2, trivial⟩

/-- A plain Solicit request with a client id and one empty IANA and IAPD. -/
def solicitExample : CSMessage :=
  CSMessage.mk MsgType.solicit 1 [Opt.clientId 7, Opt.iana 1 [], Opt.iapd 2 []]

/-- C2 counterexample: on a Solicit processed to completion by a handler with
one setup, one tree and one cleanup handler, the trace does not satisfy the
claimed ordering — the tree handler's `pre` runs before the setup handler's
`handle`, so the setup handlers have not completed all three phases before
the tree runs. -/
theorem phase_order_counterexample :
    ¬ ListMajorOrder [0] [1] [2] (mhExample.handle solicitExample true []).trace := by
  decide

/-- C2 amended: the phase ordering is phase-major over the concatenation of
setup, tree and cleanup handlers: `pre` runs on every handler (setup first,
then the tree, then cleanup), then `handle` on every handler in the same
order, then `post`.  Formally, trace positions are monotone in the phase, and
each phase's events decompose into a setup part, a tree part and a cleanup
part, in order. -/
theorem phase_major_order (mh : MessageHandler) (request : CSMessage) (multicast : Bool)
    (marks : List String) :
    (mh.handle request multicast marks).trace.Pairwise
      (fun e1 e2 => phaseIdx e1.phase ≤ phaseIdx e2.phase) ∧
    ∀ φ : Phase, ∃ t1 t2 t3,
      (mh.handle request multicast marks).trace.filter (fun e => e.phase == φ) =
        t1 ++ t2 ++ t3 ∧
      (∀ e ∈ t1, e.hid ∈ mh.setup_handlers.map SHandler.id) ∧
      (∀ e ∈ t2, e.hid ∈ Node.idsList mh.sub_nodes) ∧
      (∀ e ∈ t3, e.hid ∈ mh.cleanup_handlers.map SHandler.id) := by
  obtain ⟨t1, t2, t3, heq, hs1, hs2, hs3⟩ := handle_trace_shape mh request multicast marks
  have hpure : ∀ {t : List Event} {φ : Phase}, (∀ e ∈ t, e.phase = φ) →
      t.Pairwise (fun e1 e2 => phaseIdx e1.phase ≤ phaseIdx e2.phase) := by
    intro t φ hp
    exact List.pairwise_of_forall_mem_list fun a ha b hb => by rw [hp a ha, hp b hb]
  have hfilter : ∀ {t : List Event} {φ ψ : Phase}, (∀ e ∈ t, e.phase = φ) →
      t.filter (fun e => e.phase == ψ) = (if φ = ψ then t else []) := by
    intro t φ ψ hp
    by_cases hφ : φ = ψ
    · rw [if_pos hφ]
      apply List.filter_eq_self.mpr
      intro e he
      rw [hp e he, hφ]
      simp
    · rw [if_neg hφ]
      rw [List.filter_eq_nil_iff]
      intro e he
      rw [hp e he]
      simp [hφ]
  constructor
  · rw [heq]
    rw [List.pairwise_append]
    refine ⟨?_, ?_, ?_⟩
    · rw [List.pairwise_append]
      refine ⟨hpure hs1.1, hpure hs2.1, ?_⟩
      intro a ha b hb
      rw [hs1.1 a ha, hs2.1 b hb]
      decide
    · exact hpure hs3.1
    · intro a ha b hb
      rw [hs3.1 b hb]
      rcases List.mem_append.mp ha with ha | ha
      · rw [hs1.1 a ha]
        decide
      · rw [hs2.1 a ha]
        decide
  · intro φ
    rw [heq, List.filter_append, List.filter_append, hfilter hs1.1, hfilter hs2.1,
      hfilter hs3.1]
    obtain ⟨u1, u2, u3, hu, h1, h2, h3⟩ :
        ∃ u1 u2 u3, (if Phase.pre = φ then t1 else []) ++ (if Phase.handle = φ then t2 else []) ++
            (if Phase.post = φ then t3 else []) = u1 ++ u2 ++ u3 ∧
          (∀ e ∈ u1, e.hid ∈ mh.setup_handlers.map SHandler.id) ∧
          (∀ e ∈ u2, e.hid ∈ Node.idsList mh.sub_nodes) ∧
          (∀ e ∈ u3, e.hid ∈ mh.cleanup_handlers.map SHandler.id) := by
      cases φ
      · obtain ⟨u1, u2, u3, hu, h1, h2, h3⟩ := hs1.2
        exact ⟨u1, u2, u3, by simp [hu], h1, h2, h3⟩
      · obtain ⟨u1, u2, u3, hu, h1, h2, h3⟩ := hs2.2
        exact ⟨u1, u2, u3, by simp [hu], h1, h2, h3⟩
      · obtain ⟨u1, u2, u3, hu, h1, h2, h3⟩ := hs3.2
        exact ⟨u1, u2, u3, by simp [hu], h1, h2, h3⟩
    exact ⟨u1, u2, u3, hu, h1, h2, h3⟩

/-- C5: every response the message handler returns (over mark-level handlers)
carries exactly one ServerIdOption, with the configured DUID, and the
request's ClientIdOption unchanged. -/
theorem server_client_id_invariant (mh : MessageHandler) (request : CSMessage)
    (multicast : Bool) (marks : List String) (ht : Node.TameNList mh.allNodes) :
    GoodIdentification mh request (mh.handle request multicast marks).response := by
  rcases handle_response_cases mh request multicast marks ht with h | h | h <;> rw [h]
  · trivial
  · obtain ⟨hs, _, hc⟩ := useMulticastReply_props mh request
    exact ⟨hs, hc⟩
  · obtain ⟨r2, hpp, hsrv, hcid, _, _, _⟩ := ppResponse_some request mh.allow_rapid_commit
      mh.rapid_commit_rejections (CSMessage.mk (responseTypeFor request.msgType)
        request.transaction_id (clientIdOpts request ++ [Opt.serverId mh.server_duid]))
    rw [hpp]
    refine ⟨?_, ?_⟩
    · show r2.options.filterMap serverIdProj = _
      rw [hsrv]
      show (clientIdOpts request ++ [Opt.serverId mh.server_duid]).filterMap serverIdProj = _
      rw [List.filterMap_append, clientIdOpts_filterMap_server]
      rfl
    · intro c hc2
      exact hcid c (List.mem_append_left _ (clientIdOpts_mem request c hc2))

/-- Witness for the identification invariant on a concrete Solicit. -/
theorem server_client_id_invariant_witness :
    Node.TameNList mhExample.allNodes ∧
    GoodIdentification mhExample solicitExample
      (mhExample.handle solicitExample true ["one", "two", "one"]).response :=
  ⟨mhExample_tame,
    server_client_id_invariant mhExample solicitExample true ["one", "two", "one"]
      mhExample_tame⟩

/-- C6: on every response the message handler returns (over mark-level
handlers), an address IA with no addresses carries a nested
`STATUS_NOADDRSAVAIL` and a prefix IA with no prefixes carries a nested
`STATUS_NOPREFIXAVAIL`. -/
theorem default_deny_statuses (mh : MessageHandler) (request : CSMessage)
    (multicast : Bool) (marks : List String) (ht : Node.TameNList mh.allNodes) :
    DefaultDenyOk (mh.handle request multicast marks).response := by
  rcases handle_response_cases mh request multicast marks ht with h | h | h <;> rw [h]
  · trivial
  · refine ⟨?_, ?_, ?_⟩ <;> intro i subs hmem hempty <;> exfalso <;> revert hmem <;>
      cases hc : request.clientIdOpt <;>
        simp [useMulticastReply, clientIdOpts, hc]
  · obtain ⟨r2, hpp, _, _, _, ⟨l, hl⟩, _⟩ := ppResponse_some request mh.allow_rapid_commit
      mh.rapid_commit_rejections (CSMessage.mk (responseTypeFor request.msgType)
        request.transaction_id (clientIdOpts request ++ [Opt.serverId mh.server_duid]))
    rw [hpp]
    exact defaultDeny_of_map_fixOpt l r2 hl

/-- Witness for the default-deny invariant on a concrete Solicit with one
empty IANA and one empty IAPD. -/
theorem default_deny_statuses_witness :
    Node.TameNList mhExample.allNodes ∧
    DefaultDenyOk (mhExample.handle solicitExample true []).response :=
  ⟨mhExample_tame, default_deny_statuses mhExample solicitExample true [] mhExample_tame⟩

/-- Does every event of the given phase in the trace observe this response
type? -/
def phaseSeesB (tr : List Event) (φ : Phase) (t : Option MsgType) : Bool :=
  tr.all fun e => !(e.phase == φ) || (e.responseSeen == t)

/-- C4: for a rapid-commit Solicit under `allow_rapid_commit`, the handlers'
`handle` phase observes an Advertise response; after the handle phase the
response is rewritten to a Reply exactly when `rapid_commit_rejections` is
set, so the `post` phase and the returned response see a Reply in that case
and still an Advertise otherwise. -/
theorem rapid_commit_promotion (mh : MessageHandler) (request : CSMessage)
    (marks : List String) (ht : Node.TameNList mh.allNodes)
    (hsol : request.msgType = MsgType.solicit) (hrc : request.hasRapidCommit = true)
    (harc : mh.allow_rapid_commit = true) :
    phaseSeesB (mh.handle request true marks).trace Phase.handle
      (some MsgType.advertise) = true ∧
    phaseSeesB (mh.handle request true marks).trace Phase.post
      (some (if mh.rapid_commit_rejections then MsgType.reply else MsgType.advertise)) =
      true ∧
    (mh.handle request true marks).response.map CSMessage.msgType =
      some (if mh.rapid_commit_rejections then MsgType.reply else MsgType.advertise) := by
  obtain ⟨b1, tr1, hpre, hag1, hcases⟩ :=
    runPipeline_tame mh ht (mkBundle mh request true marks)
  rcases hcases with ⟨hm, _, _⟩ | ⟨_, b5, tr2, tr3, hpl, hresp, hev2, hev3⟩
  · exact absurd hm (by simp [mkBundle])
  have hout : mh.handle request true marks =
      HandleOutcome.mk b5.response (tr1 ++ tr2 ++ tr3) [] := by
    unfold MessageHandler.handle
    rw [if_neg (by rw [hsol]; simp [fromClientToServer]),
      if_neg (by rw [hsol]; simp [accepted]),
      if_neg (by rw [hsol]; simp)]
    simp only [hpl]
  have hreq : b1.request = request := hag1.1
  have harc1 : b1.allow_rapid_commit = mh.allow_rapid_commit := hag1.2.2.2.2.2.1
  have hrcr1 : b1.rapid_commit_rejections = mh.rapid_commit_rejections := hag1.2.2.2.2.2.2
  have hinit : (initResponse mh b1).response.map CSMessage.msgType =
      some MsgType.advertise := by
    show some (responseTypeFor b1.request.msgType) = _
    rw [hreq, hsol]
    rfl
  have hpost : (postProcess (initResponse mh b1)).response.map CSMessage.msgType =
      some (if mh.rapid_commit_rejections then MsgType.reply else MsgType.advertise) := by
    rw [postProcess_response]
    show (ppResponse b1.request b1.allow_rapid_commit b1.rapid_commit_rejections
      (some (CSMessage.mk (responseTypeFor b1.request.msgType) b1.request.transaction_id
        (clientIdOpts b1.request ++ [Opt.serverId mh.server_duid])))).map
          CSMessage.msgType = _
    obtain ⟨r2, hpp, _, _, _, _, hty⟩ := ppResponse_some b1.request b1.allow_rapid_commit
      b1.rapid_commit_rejections
      (CSMessage.mk (responseTypeFor b1.request.msgType) b1.request.transaction_id
        (clientIdOpts b1.request ++ [Opt.serverId mh.server_duid]))
    rw [hpp]
    show some r2.msgType = _
    rw [hty]
    cases hb : mh.rapid_commit_rejections <;>
      simp [hreq, hsol, hrc, harc1, hrcr1, harc, hb, responseTypeFor]
  have hph1 : ∀ e ∈ tr1, e.phase = Phase.pre := by
    intro e he
    have h := runPhaseList_events Phase.pre mh.allNodes (mkBundle mh request true marks)
    rw [hpre] at h
    exact (h e he).1
  refine ⟨?_, ?_, ?_⟩
  · rw [hout]
    simp only [phaseSeesB]
    rw [List.all_eq_true]
    intro e he
    rcases List.mem_append.mp he with hee | he3
    · rcases List.mem_append.mp hee with he1 | he2
      · rw [hph1 e he1]
        rfl
      · rw [(hev2 e he2).2, hinit]
        simp
    · rw [(hev3 e he3).1]
      rfl
  · rw [hout]
    simp only [phaseSeesB]
    rw [List.all_eq_true]
    intro e he
    rcases List.mem_append.mp he with hee | he3
    · rcases List.mem_append.mp hee with he1 | he2
      · rw [hph1 e he1]
        rfl
      · rw [(hev2 e he2).1]
        rfl
    · rw [(hev3 e he3).2, hpost]
      simp
  · rw [hout]
    show b5.response.map CSMessage.msgType = _
    rw [hresp, hpost]

/-- A Solicit carrying the rapid-commit option. -/
def rapidSolicitExample : CSMessage :=
  CSMessage.mk MsgType.solicit 1
    [Opt.clientId 7, Opt.rapidCommit, Opt.iana 1 [], Opt.iapd 2 []]

/-- A message handler with both rapid-commit booleans enabled. -/
def veryRapidMhExample : MessageHandler :=
  { mhExample with allow_rapid_commit := true, rapid_commit_rejections := true }

theorem veryRapidMhExample_tame : Node.TameNList veryRapidMhExample.allNodes :=
  ⟨idHandler_tame 0, idHandler_tame 1, idHandler_tame 2, trivial⟩

/-- Witness: with rejections enabled, the handle phase of a concrete
rapid-commit Solicit sees an Advertise, the post phase sees a Reply, and a
Reply is returned. -/
theorem rapid_commit_promotion_witness :
    Node.TameNList veryRapidMhExample.allNodes ∧
    rapidSolicitExample.msgType = MsgType.solicit ∧
    rapidSolicitExample.hasRapidCommit = true ∧
    veryRapidMhExample.allow_rapid_commit = true ∧
    (phaseSeesB (veryRapidMhExample.handle rapidSolicitExample true []).trace Phase.handle
        (some MsgType.advertise) = true ∧
      phaseSeesB (veryRapidMhExample.handle rapidSolicitExample true []).trace Phase.post
        (some (if veryRapidMhExample.rapid_commit_rejections then MsgType.reply
          else MsgType.advertise)) = true ∧
      (veryRapidMhExample.handle rapidSolicitExample true []).response.map
          CSMessage.msgType =
        some (if veryRapidMhExample.rapid_commit_rejections then MsgType.reply
          else MsgType.advertise)) :=
  ⟨veryRapidMhExample_tame, rfl, by decide, rfl,
    rapid_commit_promotion veryRapidMhExample rapidSolicitExample []
      veryRapidMhExample_tame rfl (by decide) rfl⟩

/-- C3: for an accepted request received over unicast, if the pre phase left
the unicast permission unset the handler returns the Reply whose only status
content is `STATUS_USEMULTICAST`; if some handler granted the permission, the
normal pipeline response is returned and it carries no `STATUS_USEMULTICAST`
status. -/
theorem unicast_policy (mh : MessageHandler) (request : CSMessage) (marks : List String)
    (ht : Node.TameNList mh.allNodes)
    (hft : fromClientToServer request.msgType = true)
    (hacc : accepted request.msgType = true)
    (hcf : request.msgType = MsgType.confirm → request.hasIAOption = true)
    (b1 : Bundle) (tr1 : List Event)
    (hpre : runPhaseList Phase.pre mh.allNodes (mkBundle mh request false marks) =
      (Except.ok b1, tr1)) :
    (b1.allow_unicast = false →
      (mh.handle request false marks).response = some (useMulticastReply mh request) ∧
      (useMulticastReply mh request).statusCodes = [STATUS_USEMULTICAST]) ∧
    (b1.allow_unicast = true →
      ∃ r, (mh.handle request false marks).response = some r ∧
        some r = (postProcess (initResponse mh b1)).response ∧
        STATUS_USEMULTICAST ∉ r.statusCodes) := by
  have hne1 : ¬ fromClientToServer request.msgType = false := by
    rw [hft]
    simp
  have hne2 : ¬ accepted request.msgType = false := by
    rw [hacc]
    simp
  have hne3 : ¬ (request.msgType = MsgType.confirm ∧ request.hasIAOption = false) := by
    rintro ⟨hc, hia⟩
    rw [hcf hc] at hia
    exact Bool.noConfusion hia
  obtain ⟨b1x, tr1x, hprex, hag1, hcases⟩ :=
    runPipeline_tame mh ht (mkBundle mh request false marks)
  rw [hpre] at hprex
  injection hprex with hb htr
  injection hb with hb
  subst hb
  subst htr
  constructor
  · intro hau
    rcases hcases with ⟨_, _, hpl⟩ | ⟨hcond, b5, tr2, tr3, hpl, hresp, _, _⟩
    · have hout : mh.handle request false marks =
          HandleOutcome.mk (some (useMulticastReply mh request)) tr1 [] := by
        unfold MessageHandler.handle
        rw [if_neg hne1, if_neg hne2, if_neg hne3]
        simp only [hpl, Bool.false_eq_true, if_false]
      rw [hout]
      exact ⟨rfl, (useMulticastReply_props mh request).2.1⟩
    · rcases hcond with hmt | hau2
      · exact absurd hmt (by simp [mkBundle])
      · rw [hau] at hau2
        exact Bool.noConfusion hau2
  · intro hau
    rcases hcases with ⟨_, hau2, _⟩ | ⟨hcond, b5, tr2, tr3, hpl, hresp, _, _⟩
    · rw [hau] at hau2
      exact Bool.noConfusion hau2
    · have hout : mh.handle request false marks =
          HandleOutcome.mk b5.response (tr1 ++ tr2 ++ tr3) [] := by
        unfold MessageHandler.handle
        rw [if_neg hne1, if_neg hne2, if_neg hne3]
        simp only [hpl]
      have hresp2 : b5.response = ppResponse b1.request b1.allow_rapid_commit
          b1.rapid_commit_rejections
          (some (CSMessage.mk (responseTypeFor b1.request.msgType)
            b1.request.transaction_id
            (clientIdOpts b1.request ++ [Opt.serverId mh.server_duid]))) := by
        rw [hresp, postProcess_response]
        rfl
      obtain ⟨r2, hpp, _, _, hstat, _, _⟩ := ppResponse_some b1.request
        b1.allow_rapid_commit b1.rapid_commit_rejections
        (CSMessage.mk (responseTypeFor b1.request.msgType) b1.request.transaction_id
          (clientIdOpts b1.request ++ [Opt.serverId mh.server_duid]))
      have hbase : (clientIdOpts b1.request ++
          [Opt.serverId mh.server_duid]).filterMap statusProj = [] := by
        rw [List.filterMap_append, clientIdOpts_filterMap_status]
        rfl
      refine ⟨r2, ?_, ?_, ?_⟩
      · rw [hout]
        show b5.response = some r2
        rw [hresp2, hpp]
      · have hps : (postProcess (initResponse mh b1)).response = some r2 := by
          rw [postProcess_response]
          exact hpp
        exact hps.symm
      · show STATUS_USEMULTICAST ∉ r2.options.filterMap statusProj
        rcases hstat with h | h
        · rw [h]
          show STATUS_USEMULTICAST ∉ (clientIdOpts b1.request ++
            [Opt.serverId mh.server_duid]).filterMap statusProj
          rw [hbase]
          simp
        · rw [h]
          show STATUS_USEMULTICAST ∉ ((clientIdOpts b1.request ++
            [Opt.serverId mh.server_duid]).filterMap statusProj ++ [STATUS_NOTONLINK])
          rw [hbase]
          simp [STATUS_USEMULTICAST, STATUS_NOTONLINK]

/-- Witness: on a unicast Solicit with no granting handler, the concrete
handler answers with the use-multicast Reply carrying exactly that status. -/
theorem unicast_policy_witness :
    Node.TameNList mhExample.allNodes ∧
    fromClientToServer solicitExample.msgType = true ∧
    runPhaseList Phase.pre mhExample.allNodes (mkBundle mhExample solicitExample false []) =
      (Except.ok (mkBundle mhExample solicitExample false []),
        [Event.mk 0 Phase.pre none, Event.mk 1 Phase.pre none, Event.mk 2 Phase.pre none]) ∧
    (mkBundle mhExample solicitExample false []).allow_unicast = false ∧
    ((mhExample.handle solicitExample false []).response =
        some (useMulticastReply mhExample solicitExample) ∧
      (useMulticastReply mhExample solicitExample).statusCodes = [STATUS_USEMULTICAST]) :=
  ⟨mhExample_tame, by decide, by decide, by decide,
    (unicast_policy mhExample solicitExample [] mhExample_tame (by decide) (by decide)
      (by decide) (mkBundle mhExample solicitExample false [])
      [Event.mk 0 Phase.pre none, Event.mk 1 Phase.pre none, Event.mk 2 Phase.pre none]
      (by decide)).1 (by decide)⟩

/-- C9: when a handler raises `UseMulticastError`, a request received over
multicast gets no response and the error log line, while a request received
over unicast gets the Reply carrying exactly `STATUS_USEMULTICAST`. -/
theorem use_multicast_error_handling (mh : MessageHandler) (request : CSMessage)
    (multicast : Bool) (marks : List String)
    (hft : fromClientToServer request.msgType = true)
    (hacc : accepted request.msgType = true)
    (hcf : request.msgType = MsgType.confirm → request.hasIAOption = true)
    (tr : List Event)
    (hrun : runPipeline mh (mkBundle mh request multicast marks) =
      (Except.error HandlerError.useMulticast, tr)) :
    (multicast = true → (mh.handle request multicast marks).response = none ∧
      "Not telling client to use multicast" ∈ (mh.handle request multicast marks).logs) ∧
    (multicast = false →
      (mh.handle request multicast marks).response = some (useMulticastReply mh request) ∧
      (useMulticastReply mh request).statusCodes = [STATUS_USEMULTICAST]) := by
  have hne1 : ¬ fromClientToServer request.msgType = false := by
    rw [hft]
    simp
  have hne2 : ¬ accepted request.msgType = false := by
    rw [hacc]
    simp
  have hne3 : ¬ (request.msgType = MsgType.confirm ∧ request.hasIAOption = false) := by
    rintro ⟨hc, hia⟩
    rw [hcf hc] at hia
    exact Bool.noConfusion hia
  have hout : mh.handle request multicast marks =
      (if multicast then HandleOutcome.mk none tr ["Not telling client to use multicast"]
        else HandleOutcome.mk (some (useMulticastReply mh request)) tr []) := by
    unfold MessageHandler.handle
    rw [if_neg hne1, if_neg hne2, if_neg hne3]
    simp only [hrun]
  constructor
  · intro hm
    subst hm
    rw [hout]
    exact ⟨rfl, by simp⟩
  · intro hm
    subst hm
    rw [hout]
    exact ⟨rfl, (useMulticastReply_props mh request).2.1⟩

/-- The test suite's badly-behaved handler: raises `UseMulticastError` in
`pre` exactly when the request arrived over multicast. -/
def badHandlerExample : SHandler :=
  SHandler.mk 3
    (fun b => if b.received_over_multicast then Except.error HandlerError.useMulticast
      else Except.ok b)
    (fun b => Except.ok b)
    (fun b => Except.ok b)

/-- A message handler whose tree raises `UseMulticastError`. -/
def badMhExample : MessageHandler :=
  { server_duid := 42
    setup_handlers := []
    sub_nodes := [Node.handler badHandlerExample]
    cleanup_handlers := []
    allow_rapid_commit := false
    rapid_commit_rejections := false }

/-- Witness: the bad handler raising on a multicast Solicit produces no
response and the error log line. -/
theorem use_multicast_error_handling_witness :
    runPipeline badMhExample (mkBundle badMhExample solicitExample true []) =
      (Except.error HandlerError.useMulticast, [Event.mk 3 Phase.pre none]) ∧
    ((badMhExample.handle solicitExample true []).response = none ∧
      "Not telling client to use multicast" ∈
        (badMhExample.handle solicitExample true []).logs) :=
  ⟨by decide,
    (use_multicast_error_handling badMhExample solicitExample true [] (by decide)
      (by decide) (by decide) [Event.mk 3 Phase.pre none] (by decide)).1 rfl⟩

end Dhcpkit
